import Mathlib

set_option maxRecDepth 100000

/-!
Verification development for the OMSCS catalog crawler
(`src/catalog/crawler.ts`).  The TypeScript source is shallowly embedded:
strings are `List Char`, JavaScript regular expressions are hand-compiled
to deterministic scanners (each scanner's doc comment cites the regex it
implements, and the compilation is justified where greedy/lazy matching
and backtracking matter), JS objects keyed by strings are association
lists with JS insertion-order update semantics.
-/

namespace Crawler

/-! ## Character classes

JS `[A-Z]` and `[0-9]`/`\d` are the ASCII ranges.  JS `\s` is the
WhiteSpace ∪ LineTerminator set
(TAB LF VT FF CR SP NBSP OGHAM U+2000–U+200A LS PS NNBSP MMSP IDSP BOM);
`String.prototype.trim` strips the same set.  `.` (no `s` flag) matches
everything except the four line terminators LF CR LS PS. -/

def isUpperAscii (c : Char) : Bool := decide (65 ≤ c.toNat ∧ c.toNat ≤ 90)

def isDigitAscii (c : Char) : Bool := decide (48 ≤ c.toNat ∧ c.toNat ≤ 57)

def isJsWs (c : Char) : Bool :=
  decide (c.toNat = 9 ∨ c.toNat = 10 ∨ c.toNat = 11 ∨ c.toNat = 12 ∨ c.toNat = 13 ∨
    c.toNat = 32 ∨ c.toNat = 160 ∨ c.toNat = 5760 ∨
    (8192 ≤ c.toNat ∧ c.toNat ≤ 8202) ∨
    c.toNat = 8232 ∨ c.toNat = 8233 ∨ c.toNat = 8239 ∨ c.toNat = 8287 ∨
    c.toNat = 12288 ∨ c.toNat = 65279)

def isLineTerm (c : Char) : Bool :=
  decide (c.toNat = 10 ∨ c.toNat = 13 ∨ c.toNat = 8232 ∨ c.toNat = 8233)

/-- The character class `[:\s]` used by `parseCourseText`'s separator. -/
def isColonOrWs (c : Char) : Bool := c == ':' || isJsWs c

/-- ASCII lowercasing, modelling `String.prototype.toLowerCase` and the
`i` regex flag on the ASCII text this crawler handles. -/
def lowerChar (c : Char) : Char :=
  if isUpperAscii c then Char.ofNat (c.toNat + 32) else c

def lowerStr (l : List Char) : List Char := l.map lowerChar

/-! ## Generic string utilities -/

/-- Case-insensitive literal prefix test. -/
def startsWithCI : List Char → List Char → Bool
  | [], _ => true
  | _ :: _, [] => false
  | p :: ps, c :: cs => lowerChar p == lowerChar c && startsWithCI ps cs

/-- `String.prototype.includes` (case-sensitive literal containment). -/
def containsSub (pat : List Char) : List Char → Bool
  | [] => pat.isPrefixOf []
  | c :: rest => pat.isPrefixOf (c :: rest) || containsSub pat rest

/-- Decimal value of a digit string, as computed by `parseInt(s, 10)`
on an all-digit string. -/
def natOfDigits (l : List Char) : Nat :=
  l.foldl (fun acc c => 10 * acc + (c.toNat - 48)) 0

/-! ## Text Normalizer: `decodeHtmlEntities` (crawler.ts lines 70–82)

Each `.replace(/LITERAL/g, r)` call is a global leftmost
literal replacement; the final `.replace(/\s+/g, ' ')` collapses every
maximal whitespace run to a single space and `.trim()` strips
leading/trailing whitespace. -/

/-- Global literal replacement `.replace(/p0 ptl/g, repl)`: scan left to
right, replace each (non-overlapping) occurrence, resume after it.  The
pattern is split as head `p0` and tail `ptl` so it is never empty.  The
first argument counts characters still to be skipped because they belong
to an already-replaced occurrence (structural recursion on the text). -/
def replaceAllAux (p0 : Char) (ptl repl : List Char) : Nat → List Char → List Char
  | _, [] => []
  | n + 1, _ :: rest => replaceAllAux p0 ptl repl n rest
  | 0, c :: rest =>
    if (p0 :: ptl).isPrefixOf (c :: rest) then
      repl ++ replaceAllAux p0 ptl repl ptl.length rest
    else
      c :: replaceAllAux p0 ptl repl 0 rest

def replaceAll (p0 : Char) (ptl repl : List Char) (l : List Char) : List Char :=
  replaceAllAux p0 ptl repl 0 l

/-- `.replace(/\s+/g, ' ')`: each maximal whitespace run becomes one
space.  A whitespace character is emitted as `' '` only when the
following character is not also whitespace (i.e. it closes its run). -/
def collapseWs : List Char → List Char
  | [] => []
  | [c] => [if isJsWs c then ' ' else c]
  | c1 :: c2 :: rest =>
    if isJsWs c1 && isJsWs c2 then collapseWs (c2 :: rest)
    else (if isJsWs c1 then ' ' else c1) :: collapseWs (c2 :: rest)

/-- `String.prototype.trim`. -/
def trimWs (l : List Char) : List Char :=
  ((l.dropWhile isJsWs).reverse.dropWhile isJsWs).reverse

/-- `decodeHtmlEntities` (crawler.ts lines 70–82): the eight entity
replacements in source order, then whitespace collapsing, then trim. -/
def decodeHtmlEntities (text : List Char) : List Char :=
  trimWs (collapseWs
    (replaceAll '&' "mdash;".toList "—".toList
      (replaceAll '&' "ndash;".toList "–".toList
        (replaceAll '&' "#39;".toList "'".toList
          (replaceAll '&' "quot;".toList "\"".toList
            (replaceAll '&' "gt;".toList ">".toList
              (replaceAll '&' "lt;".toList "<".toList
                (replaceAll '&' "amp;".toList "&".toList
                  (replaceAll '&' "nbsp;".toList " ".toList text)))))))))

/-! ## Data model (crawler.ts lines 42–65) -/

structure Course where
  courseId : String
  name : String
  departmentId : String
  courseNumber : String
  url : Option String
  isFoundational : Bool
  aliases : List String
  isDeprecated : Bool
deriving DecidableEq, Repr

structure SpecializationCourseGroup where
  name : String
  pickCount : Nat
  courseIds : List String
deriving DecidableEq, Repr

structure Specialization where
  specializationId : String
  name : String
  programId : String
  coreCourses : List SpecializationCourseGroup
  electiveCourseIds : List String
deriving DecidableEq, Repr

/-! ## Entity Recognizer
(`parseCourseText`, crawler.ts lines 105–138, regex
  `^([A-Z]{2,4})\s*(\d{4})(?:\s*([A-Z]\d{2}))?[:\s]+(.+)$`
and `extractCourseId`, lines 182–191, regex
  `^([A-Z]{2,4})\s*(\d{4})(?:\s*([A-Z]\d{2}))?`).

Hand-compilation notes.  `[A-Z]{2,4}` greedy: taking the maximal run of
uppercase letters is equivalent to backtracking, because after any
shorter prefix of a longer run the next character is an uppercase letter,
which matches neither `\s` nor `\d`; a maximal run of length 0, 1 or ≥ 5
therefore fails.  `\s*` greedy before `\d{4}` / `[A-Z]\d{2}`: maximal
munch is exact since after a shorter whitespace run the next character is
whitespace, matching neither `\d` nor `[A-Z]`.  The optional
`(?:\s*([A-Z]\d{2}))?` group is tried greedily; in `parseCourseText` the
engine backtracks and drops it when the mandatory trailing
`[:\s]+(.+)$` cannot match after it, while in `extractCourseId` nothing
follows it, so a syntactically present section code is always taken. -/

/-- Matches `^([A-Z]{2,4})\s*(\d{4})` and returns
(subject, the four digits, rest of the text). -/
def matchMentionBase (s : List Char) : Option (List Char × List Char × List Char) :=
  let ls := s.takeWhile isUpperAscii
  let r1 := s.dropWhile isUpperAscii
  if 2 ≤ ls.length && ls.length ≤ 4 then
    match r1.dropWhile isJsWs with
    | d1 :: d2 :: d3 :: d4 :: r3 =>
      if isDigitAscii d1 && isDigitAscii d2 && isDigitAscii d3 && isDigitAscii d4 then
        some (ls, [d1, d2, d3, d4], r3)
      else none
    | _ => none
  else none

/-- Matches the optional group `(?:\s*([A-Z]\d{2}))?` at the front of
`r`, returning the three section-code characters and the rest. -/
def tryCode (r : List Char) : Option ((Char × Char × Char) × List Char) :=
  match r.dropWhile isJsWs with
  | a :: b :: c :: r5 =>
    if isUpperAscii a && isDigitAscii b && isDigitAscii c then some ((a, b, c), r5)
    else none
  | _ => none

/-- Matches `[:\s]+(.+)$` against `r` and returns the capture.  With
`sep` the maximal `[:\s]` run: if something follows `sep` it must all be
matched by `.+` (no line terminators); if nothing follows, the engine
gives back the last separator character to `.+` provided at least one
separator remains and that character is not a line terminator. -/
def matchTail (r : List Char) : Option (List Char) :=
  let sep := r.takeWhile isColonOrWs
  match r.dropWhile isColonOrWs with
  | [] =>
    match sep.getLast? with
    | some c => if 2 ≤ sep.length && !isLineTerm c then some [c] else none
    | none => none
  | x :: rest =>
    if sep.isEmpty then none
    else if (x :: rest).all (fun c => !isLineTerm c) then some (x :: rest)
    else none

/-- Identifier `SUBJECT-NUMBER` or `SUBJECT-NUMBER-SECTIONCODE`. -/
def mkCourseId (subj num : List Char) (code : Option (Char × Char × Char)) : String :=
  match code with
  | some (a, b, c) => String.mk (subj ++ '-' :: num ++ ['-', a, b, c])
  | none => String.mk (subj ++ '-' :: num)

/-- Course-number field `NUMBER` or `NUMBER-SECTIONCODE`. -/
def mkCourseNumber (num : List Char) (code : Option (Char × Char × Char)) : String :=
  match code with
  | some (a, b, c) => String.mk (num ++ ['-', a, b, c])
  | none => String.mk num

/-- `extractCourseId` (crawler.ts lines 182–191). -/
def extractCourseId (text : List Char) : Option String :=
  match matchMentionBase text with
  | none => none
  | some (subj, num, r) =>
    match tryCode r with
    | some (code, _) => some (mkCourseId subj num (some code))
    | none => some (mkCourseId subj num none)

/-- `parseCourseText` (crawler.ts lines 105–138). -/
def parseCourseText (text : List Char) (url : Option String) (isFoundational : Bool) :
    Option Course :=
  match matchMentionBase text with
  | none => none
  | some (subj, num, r) =>
    let build : Option (Char × Char × Char) → List Char → Course := fun code nm =>
      { courseId := mkCourseId subj num code
        name := String.mk (trimWs nm)
        departmentId := String.mk subj
        courseNumber := mkCourseNumber num code
        url := url
        isFoundational := isFoundational
        aliases := []
        isDeprecated := false }
    match tryCode r with
    | some (code, r2) =>
      match matchTail r2 with
      | some nm => some (build (some code) nm)
      | none =>
        match matchTail r with
        | some nm => some (build none nm)
        | none => none
    | none =>
      match matchTail r with
      | some nm => some (build none nm)
      | none => none

/-! ## Regex scanners

`scanPos f s 0` models a `while ((m = re.exec(s)) !== null)` loop over a
global regex: the leftmost match at or after the current index is taken
and scanning resumes at its end.  Each hand-compiled matcher
`f : List Char → Option (α × Nat)` reports its payload and the number of
characters the whole match consumed (always ≥ 1 for the matchers below;
`max k 1` only serves termination). -/

def scanPosAux (f : List Char → Option (α × Nat)) :
    Nat → List Char → Nat → List (α × Nat × Nat)
  | _, [], _ => []
  | n + 1, _ :: rest, pos => scanPosAux f n rest (pos + 1)
  | 0, c :: rest, pos =>
    match f (c :: rest) with
    | some (a, k) => (a, pos, pos + k) :: scanPosAux f (max k 1 - 1) rest (pos + 1)
    | none => scanPosAux f 0 rest (pos + 1)

def scanPos (f : List Char → Option (α × Nat)) (l : List Char) (pos : Nat) :
    List (α × Nat × Nat) :=
  scanPosAux f 0 l pos

/-- `re.exec(s)` for a non-global search: the leftmost match, its index
and its consumed length. -/
def findFirstFrom (f : List Char → Option (α × Nat)) : List Char → Nat → Option (α × Nat × Nat)
  | [], _ => none
  | c :: rest, pos =>
    match f (c :: rest) with
    | some (a, k) => some (a, pos, k)
    | none => findFirstFrom f rest (pos + 1)

/-- `re.test(s)`: does the pattern match at some position? -/
def existsMatch (f : List Char → Option (α × Nat)) : List Char → Bool
  | [] => false
  | c :: rest => (f (c :: rest)).isSome || existsMatch f rest

/-- Split at the first case-insensitive occurrence of `pat` (a lazy
`([\s\S]*?)` capture up to `pat`): returns the capture and the number of
characters consumed including `pat` itself. -/
def captureUntilCI (pat : List Char) : List Char → Option (List Char × Nat)
  | [] => none
  | c :: rest =>
    if startsWithCI pat (c :: rest) then some ([], pat.length)
    else
      match captureUntilCI pat rest with
      | some (cap, n) => some (c :: cap, n + 1)
      | none => none

/-- Like `captureUntilCI` with two alternative terminators of equal
length (for `<\/(?:ul|ol)>`): the first position where either matches. -/
def captureUntilCI2 (pat1 pat2 : List Char) : List Char → Option (List Char × Nat)
  | [] => none
  | c :: rest =>
    if startsWithCI pat1 (c :: rest) then some ([], pat1.length)
    else if startsWithCI pat2 (c :: rest) then some ([], pat2.length)
    else
      match captureUntilCI2 pat1 pat2 rest with
      | some (cap, n) => some (c :: cap, n + 1)
      | none => none

/-- `.replace(/<[^>]+>/g, '')` — strip markup.  At a `<`, the greedy
`[^>]+` runs to the first `>` and requires at least one character in
between; with no `>` ahead, or with `<>` (empty inside), there is no
match at this position and the `<` is kept. -/
def stripTagsAux : Nat → List Char → List Char
  | _, [] => []
  | n + 1, _ :: rest => stripTagsAux n rest
  | 0, c :: rest =>
    if c = '<' then
      let attrs := rest.takeWhile (fun x => !(x == '>'))
      let r2 := rest.dropWhile (fun x => !(x == '>'))
      if r2.isEmpty || attrs.isEmpty then c :: stripTagsAux 0 rest
      else stripTagsAux (attrs.length + 1) rest
    else c :: stripTagsAux 0 rest

def stripTags (l : List Char) : List Char := stripTagsAux 0 l

/-- Item text handed to the Entity Recognizer:
`decodeHtmlEntities(itemHtml.replace(/<[^>]+>/g, ''))`. -/
def itemTextOf (itemHtml : List Char) : List Char :=
  decodeHtmlEntities (stripTags itemHtml)

/-! ## List Extractor (`/<li[^>]*>([\s\S]*?)<\/li>/gi`) -/

/-- Match `<li[^>]*>([\s\S]*?)<\/li>` at the start of `s` (case
insensitive): literal `<li`, greedy `[^>]*` to the first `>`, lazy
capture to the first `</li>`. -/
def matchLiAt (s : List Char) : Option (List Char × Nat) :=
  if startsWithCI "<li".toList s then
    let rest := s.drop 3
    let attrs := rest.takeWhile (fun x => !(x == '>'))
    match rest.dropWhile (fun x => !(x == '>')) with
    | '>' :: r3 =>
      match captureUntilCI "</li>".toList r3 with
      | some (cap, n) => some (cap, 3 + attrs.length + 1 + n)
      | none => none
    | _ => none
  else none

/-- All `<li>` captures of a fragment, in document order. -/
def scanLis (s : List Char) : List (List Char) :=
  (scanPos matchLiAt s 0).map (fun x => x.1)

/-! ## Requirement Group Classifier scanners
(crawlSpecialization, crawler.ts lines 299–511) -/

/-- A `<ul>/<ol>` list found in a fragment with its inner HTML and its
match positions (`listMatch.index`, `listMatch.index + match[0].length`). -/
structure ListPos where
  html : List Char
  startPos : Nat
  endPos : Nat
deriving DecidableEq, Repr

/-- Match `<(?:ul|ol)[^>]*>([\s\S]*?)<\/(?:ul|ol)>` at the start of `s`
(case insensitive): open tag with greedy `[^>]*` to the first `>`, lazy
capture to the first closer of either kind. -/
def matchOpenListAt (s : List Char) : Option (List Char × Nat) :=
  if startsWithCI "<ul".toList s || startsWithCI "<ol".toList s then
    let rest := s.drop 3
    let attrs := rest.takeWhile (fun x => !(x == '>'))
    match rest.dropWhile (fun x => !(x == '>')) with
    | '>' :: r3 =>
      match captureUntilCI2 "</ul>".toList "</ol>".toList r3 with
      | some (cap, n) => some (cap, 3 + attrs.length + 1 + n)
      | none => none
    | _ => none
  else none

/-- All lists of the fragment with positions (crawler.ts lines 322–332). -/
def scanLists (s : List Char) : List ListPos :=
  (scanPos matchOpenListAt s 0).map (fun x => ⟨x.1, x.2.1, x.2.2⟩)

/-- Word-to-number step shared by every pick-count scanner
(crawler.ts lines 248–257, 340–349, 443–452): scan the lowercased
matched text for the spelled words `one`..`five` in that fixed order,
taking the first one contained in it, else keep the default. -/
def wordPickCount (dflt : Nat) (matchedLower : List Char) : Nat :=
  if containsSub "one".toList matchedLower then 1
  else if containsSub "two".toList matchedLower then 2
  else if containsSub "three".toList matchedLower then 3
  else if containsSub "four".toList matchedLower then 4
  else if containsSub "five".toList matchedLower then 5
  else dflt

/-- Match `\s+(?:one|two|three|four|five|(\d+))(?:\s*\((\d+)\))?` — the
part of every pick regex following the literal `pick` — returning
(capture 1, capture 2, consumed length).  The alternation tries the five
words in order before `(\d+)`; the optional parenthesised count is taken
greedily and dropped if `(` is not followed by digits and `)`. -/
def matchPickTail (s : List Char) : Option (Option (List Char) × Option (List Char) × Nat) :=
  let w := s.takeWhile isJsWs
  if w.isEmpty then none
  else
    let r1 := s.dropWhile isJsWs
    let afterWord : Option (Option (List Char) × Nat) :=
      if startsWithCI "one".toList r1 then some (none, 3)
      else if startsWithCI "two".toList r1 then some (none, 3)
      else if startsWithCI "three".toList r1 then some (none, 5)
      else if startsWithCI "four".toList r1 then some (none, 4)
      else if startsWithCI "five".toList r1 then some (none, 4)
      else
        let ds := r1.takeWhile isDigitAscii
        if ds.isEmpty then none else some (some ds, ds.length)
    match afterWord with
    | none => none
    | some (cap1, k1) =>
      let r2 := r1.drop k1
      let w2 := r2.takeWhile isJsWs
      let r3 := r2.dropWhile isJsWs
      match r3 with
      | '(' :: r4 =>
        let ds2 := r4.takeWhile isDigitAscii
        match r4.dropWhile isDigitAscii with
        | ')' :: _ =>
          if ds2.isEmpty then some (cap1, none, w.length + k1)
          else some (cap1, some ds2, w.length + k1 + w2.length + 1 + ds2.length + 1)
        | _ => some (cap1, none, w.length + k1)
      | _ => some (cap1, none, w.length + k1)

/-- An `And, pick X` marker with its resolved count and match index
(crawler.ts lines 334–354). -/
structure AndPick where
  pickCount : Nat
  pos : Nat
deriving DecidableEq, Repr

/-- Match `and,?\s*pick` followed by `matchPickTail` at the start of `s`
(regex `and,?\s*pick\s+(?:one|two|three|four|five|(\d+))(?:\s*\((\d+)\))?`,
case insensitive), resolving the count exactly as the source does:
default 2, then the word scan over the lowercased matched text, then
capture 1, then capture 2. -/
def matchAndPickAt (s : List Char) : Option (Nat × Nat) :=
  if startsWithCI "and".toList s then
    let r1 := s.drop 3
    let commaLen : Nat := match r1 with | ',' :: _ => 1 | _ => 0
    let r2 := r1.drop commaLen
    let wsLen := (r2.takeWhile isJsWs).length
    let r3 := r2.drop wsLen
    if startsWithCI "pick".toList r3 then
      match matchPickTail (r3.drop 4) with
      | some (cap1, cap2, k) =>
        let total := 3 + commaLen + wsLen + 4 + k
        let matched := lowerStr (s.take total)
        let pc0 := wordPickCount 2 matched
        let pc1 := match cap1 with | some ds => natOfDigits ds | none => pc0
        let pc2 := match cap2 with | some ds => natOfDigits ds | none => pc1
        some (pc2, total)
      | none => none
    else none
  else none

/-- All `And, pick X` markers with positions (crawler.ts lines 335–354). -/
def scanAndPicks (s : List Char) : List AndPick :=
  (scanPos matchAndPickAt s 0).map (fun x => ⟨x.1, x.2.1⟩)

/-- Match `pick\s+(?:one|two|three|four|five|(\d+))(?:\s*\((\d+)\))?`
(case insensitive) at the start of `s`; default count 1
(crawler.ts lines 438–454). -/
def matchPickAt (s : List Char) : Option (Nat × Nat) :=
  if startsWithCI "pick".toList s then
    match matchPickTail (s.drop 4) with
    | some (cap1, cap2, k) =>
      let total := 4 + k
      let matched := lowerStr (s.take total)
      let pc0 := wordPickCount 1 matched
      let pc1 := match cap1 with | some ds => natOfDigits ds | none => pc0
      let pc2 := match cap2 with | some ds => natOfDigits ds | none => pc1
      some (pc2, total)
    | none => none
  else none

/-- Match
`<\/(?:ul|ol)>\s*<p[^>]*>\s*or\s*<\/p>\s*<(?:ul|ol)` (case insensitive)
at the start of `s` — the "or between lists" trigger
(crawler.ts line 357). -/
def matchOrJoinAt (s : List Char) : Option (Unit × Nat) :=
  if startsWithCI "</ul>".toList s || startsWithCI "</ol>".toList s then
    let r1 := (s.drop 5).dropWhile isJsWs
    if startsWithCI "<p".toList r1 then
      match (r1.drop 2).dropWhile (fun x => !(x == '>')) with
      | '>' :: r2 =>
        let r3 := r2.dropWhile isJsWs
        if startsWithCI "or".toList r3 then
          let r4 := (r3.drop 2).dropWhile isJsWs
          if startsWithCI "</p>".toList r4 then
            let r5 := (r4.drop 4).dropWhile isJsWs
            if startsWithCI "<ul".toList r5 || startsWithCI "<ol".toList r5 then
              some ((), 1)
            else none
          else none
        else none
      | _ => none
    else none
  else none

/-- `hasOrBetweenLists` (crawler.ts line 357): `.test` of the pattern. -/
def hasOrBetweenLists (s : List Char) : Bool :=
  existsMatch matchOrJoinAt s

/-! ## Section Segmenter (`extractSectionContent`, crawler.ts lines 196–234) -/

/-- Match the start-of-section heading regex
`<h[34][^>]*>\s*NAME\s*\([^)]*\)\s*<\/h[34]>` (case insensitive) at the
start of `s`.  Note the parenthesised qualifier is mandatory here.
Maximal munch is exact for the target labels (they begin and end with
non-whitespace, non-parenthesis characters). -/
def matchStartHeadingAt (name : List Char) (s : List Char) : Option (Unit × Nat) :=
  match s with
  | '<' :: h :: d :: rest =>
    if (lowerChar h == 'h') && (d == '3' || d == '4') then
      let attrs := rest.takeWhile (fun x => !(x == '>'))
      match rest.dropWhile (fun x => !(x == '>')) with
      | '>' :: r2 =>
        let ws1 := (r2.takeWhile isJsWs).length
        let r3 := r2.drop ws1
        if startsWithCI name r3 then
          let r4 := r3.drop name.length
          let ws2 := (r4.takeWhile isJsWs).length
          match r4.drop ws2 with
          | '(' :: r5 =>
            let inner := r5.takeWhile (fun x => !(x == ')'))
            match r5.dropWhile (fun x => !(x == ')')) with
            | ')' :: r6 =>
              let ws3 := (r6.takeWhile isJsWs).length
              match r6.drop ws3 with
              | '<' :: '/' :: h2 :: d2 :: '>' :: _ =>
                if (lowerChar h2 == 'h') && (d2 == '3' || d2 == '4') then
                  some ((), 3 + attrs.length + 1 + ws1 + name.length + ws2 + 1 +
                    inner.length + 1 + ws3 + 5)
                else none
              | _ => none
            | _ => none
          | _ => none
        else none
      | _ => none
    else none
  | _ => none

/-- Match the next-section heading regex
`<h[34][^>]*>\s*NAME\s*(?:\([^)]*\))?\s*<\/h[34]>` (case insensitive):
identical but with the qualifier optional.  If a `(` follows the label
but the bracketed group or the closing tag fails, the position fails
(skipping the group leaves `</h` facing `(`). -/
def matchNextHeadingAt (name : List Char) (s : List Char) : Option (Unit × Nat) :=
  match s with
  | '<' :: h :: d :: rest =>
    if (lowerChar h == 'h') && (d == '3' || d == '4') then
      let attrs := rest.takeWhile (fun x => !(x == '>'))
      match rest.dropWhile (fun x => !(x == '>')) with
      | '>' :: r2 =>
        let ws1 := (r2.takeWhile isJsWs).length
        let r3 := r2.drop ws1
        if startsWithCI name r3 then
          let r4 := r3.drop name.length
          let ws2 := (r4.takeWhile isJsWs).length
          let base := 3 + attrs.length + 1 + ws1 + name.length + ws2
          match r4.drop ws2 with
          | '(' :: r5 =>
            let inner := r5.takeWhile (fun x => !(x == ')'))
            match r5.dropWhile (fun x => !(x == ')')) with
            | ')' :: r6 =>
              let ws3 := (r6.takeWhile isJsWs).length
              match r6.drop ws3 with
              | '<' :: '/' :: h2 :: d2 :: '>' :: _ =>
                if (lowerChar h2 == 'h') && (d2 == '3' || d2 == '4') then
                  some ((), base + 1 + inner.length + 1 + ws3 + 5)
                else none
              | _ => none
            | _ => none
          | '<' :: '/' :: h2 :: d2 :: '>' :: _ =>
            if (lowerChar h2 == 'h') && (d2 == '3' || d2 == '4') then
              some ((), base + 5)
            else none
          | _ => none
        else none
      | _ => none
    else none
  | _ => none

/-- Match the generic terminator `<h[34][^>]*>` (case insensitive). -/
def matchAnyHeadingAt (s : List Char) : Option (Unit × Nat) :=
  match s with
  | '<' :: h :: d :: rest =>
    if (lowerChar h == 'h') && (d == '3' || d == '4') then
      let attrs := rest.takeWhile (fun x => !(x == '>'))
      match rest.dropWhile (fun x => !(x == '>')) with
      | '>' :: _ => some ((), 3 + attrs.length + 1)
      | _ => none
    else none
  | _ => none

/-- `extractSectionContent` (crawler.ts lines 196–234): find the first
start heading; cut at the earliest matching "next section" heading found
in the text after it, then at the first generic `h3/h4` open tag inside
what remains; return the enclosed markup, or `none` when the start
heading is absent. -/
def extractSectionContent (html : List Char) (sectionName : List Char)
    (nextSectionNames : List (List Char)) : Option (List Char) :=
  match findFirstFrom (matchStartHeadingAt sectionName) html 0 with
  | none => none
  | some (_, idx, k) =>
    let startIndex := idx + k
    let tail := html.drop startIndex
    let endIndex := nextSectionNames.foldl (fun e nm =>
      match findFirstFrom (matchNextHeadingAt nm) tail 0 with
      | some (_, j, _) => if startIndex + j < e then startIndex + j else e
      | none => e) html.length
    let tempHtml := tail.take (endIndex - startIndex)
    let endIndex2 :=
      match findFirstFrom matchAnyHeadingAt tempHtml 0 with
      | some (_, j, _) => if startIndex + j < endIndex then startIndex + j else endIndex
      | none => endIndex
    some (tail.take (endIndex2 - startIndex))

/-! ## Requirement Group Classifier (crawler.ts lines 306–511) -/

/-- `if (courseId && !ids.includes(courseId)) ids.push(courseId)`. -/
def addUnique [DecidableEq α] (acc : List α) (x : α) : List α :=
  if x ∈ acc then acc else acc ++ [x]

/-- Deduplication keeping the first occurrence (declarative reading of
the repeated `includes`-guarded `push` idiom). -/
def dedupKeepFirst [DecidableEq α] : List α → List α
  | [] => []
  | x :: xs => x :: dedupKeepFirst (xs.filter (fun y => y ≠ x))
termination_by l => l.length
decreasing_by
  have h := List.length_filter_le (fun y => y ≠ x) xs
  simp only [List.length_cons]
  omega

/-- Accumulate the course ids of a run of `<li>` captures
(crawler.ts lines 367–376, 423–431, 463–472): strip markup, decode,
extract an identifier, keep first occurrences. -/
def extractIdsPlain (acc : List String) (items : List (List Char)) : List String :=
  items.foldl (fun a it =>
    match extractCourseId (itemTextOf it) with
    | some cid => addUnique a cid
    | none => a) acc

/-- Is a list item discarded as instructional prose inside an
`And, pick X` group (crawler.ts lines 398–401)? -/
def isInstructionalItem (t : List Char) : Bool :=
  containsSub "any core courses".toList (lowerStr t) ||
  containsSub "any special topics".toList (lowerStr t)

/-- Like `extractIdsPlain` but skipping instructional items
(crawler.ts lines 394–408). -/
def extractIdsSkip (acc : List String) (items : List (List Char)) : List String :=
  items.foldl (fun a it =>
    let t := itemTextOf it
    if isInstructionalItem t then a
    else
      match extractCourseId t with
      | some cid => addUnique a cid
      | none => a) acc

/-- Pair each `And, pick X` marker with the position of the following
marker, or the fragment length for the last one
(crawler.ts lines 386–388). -/
def zipNext : List AndPick → Nat → List (AndPick × Nat)
  | [], _ => []
  | [a], len => [(a, len)]
  | a :: b :: rest, len => (a, b.pos) :: zipNext (b :: rest) len

/-- Lists strictly before the first marker pooled into one implicit
`Pick 1` group, emitted only when non-empty (crawler.ts lines 363–381). -/
def corePick1Group (lists : List ListPos) (firstAndPos : Nat) :
    List SpecializationCourseGroup :=
  let ids := (lists.filter (fun l => l.endPos < firstAndPos)).foldl
    (fun acc l => extractIdsPlain acc (scanLis l.html)) []
  if ids.isEmpty then [] else [⟨"Pick 1", 1, ids⟩]

/-- One `Pick X` group per marker from the lists strictly between it and
the next marker, emitted only when non-empty
(crawler.ts lines 383–418). -/
def coreAndPickGroups (lists : List ListPos) (aps : List AndPick) (secLen : Nat) :
    List SpecializationCourseGroup :=
  (zipNext aps secLen).flatMap (fun an =>
    let ids := (lists.filter (fun l =>
        an.1.pos < l.startPos && l.startPos < an.2)).foldl
      (fun acc l => extractIdsSkip acc (scanLis l.html)) []
    if ids.isEmpty then []
    else [⟨"Pick " ++ toString an.1.pickCount, an.1.pickCount, ids⟩])

/-- All lists pooled into one `Pick 1` alternatives group
(crawler.ts lines 419–435). -/
def orJoinedGroup (lists : List ListPos) : List SpecializationCourseGroup :=
  let ids := lists.foldl (fun acc l => extractIdsPlain acc (scanLis l.html)) []
  if ids.isEmpty then [] else [⟨"Pick 1", 1, ids⟩]

/-- The distinct resolved `pick X` counts of the fragment, in first-seen
order (crawler.ts lines 438–459). -/
def fallbackPickCounts (s : List Char) : List Nat :=
  (scanPos matchPickAt s 0).foldl (fun acc x => addUnique acc x.1) []

/-- The deduplicated course ids of every `<li>` of the fragment
(crawler.ts lines 462–472). -/
def sectionItemIds (s : List Char) : List String :=
  extractIdsPlain [] (scanLis s)

/-- Fallback flat pattern (crawler.ts lines 436–478): one `Core` group
of every recognized mention; its pick-count is the first distinct
`pick X` value when one exists, otherwise the member count. -/
def fallbackGroup (s : List Char) : List SpecializationCourseGroup :=
  let ids := sectionItemIds s
  if ids.isEmpty then []
  else
    [⟨"Core",
      match fallbackPickCounts s with
      | [] => ids.length
      | p :: _ => p,
      ids⟩]

/-- The core-requirements classification of a core section fragment
(crawler.ts lines 312–479): the `And, pick X` pattern when a marker
exists, else the or-joined pattern when the trigger fires, else the
fallback flat pattern. -/
def parseCoreGroups (s : List Char) : List SpecializationCourseGroup :=
  let lists := scanLists s
  match scanAndPicks s with
  | ap :: aps =>
    corePick1Group lists ap.pos ++ coreAndPickGroups lists (ap :: aps) s.length
  | [] =>
    if hasOrBetweenLists s then orJoinedGroup lists
    else fallbackGroup s

/-- Elective identifiers of an electives section fragment
(crawler.ts lines 484–502): list items whose text contains `pick ` and
yields no identifier are instructional prose and skipped; the rest
contribute their identifier, deduplicated keeping first occurrence. -/
def electiveIdsOf (s : List Char) : List String :=
  (scanLis s).foldl (fun acc it =>
    let t := itemTextOf it
    if containsSub "pick ".toList (lowerStr t) && (extractCourseId t).isNone then acc
    else
      match extractCourseId t with
      | some cid => addUnique acc cid
      | none => acc) []

/-- The pure part of `crawlSpecialization` (crawler.ts lines 299–511),
taking the already-fetched page HTML.  A missing section yields the
empty group/elective list for that section; no input makes this function
fail. -/
def crawlSpecializationPure (html : List Char) (specId specName : String) :
    Specialization :=
  { specializationId := specId
    name := specName
    programId := "cs"
    coreCourses :=
      match extractSectionContent html "Core Courses".toList
          ["Electives".toList, "Free Electives".toList] with
      | none => []
      | some sec => parseCoreGroups sec
    electiveCourseIds :=
      match extractSectionContent html "Electives".toList ["Free Electives".toList] with
      | none => []
      | some sec => electiveIdsOf sec }

/-! ## Catalog Reconciler (crawler.ts lines 568–608)

`Record<string, T>` objects keyed by identifier are association lists
with JS semantics: updating an existing key keeps its position, a new
key is appended.  JS objects never hold duplicate keys, which theorems
carry as a `Nodup` hypothesis on pre-existing registries. -/

def getKey (m : List (String × α)) (k : String) : Option α :=
  match m with
  | [] => none
  | (k', v) :: t => if k' = k then some v else getKey t k

def setKey (m : List (String × α)) (k : String) (v : α) : List (String × α) :=
  match m with
  | [] => [(k, v)]
  | (k', v') :: t => if k' = k then (k, v) :: t else (k', v') :: setKey t k v

def keysOf (m : List (String × α)) : List String := m.map Prod.fst

/-- The merged record for an already-present course
(crawler.ts lines 582–587): descriptive fields from the fresh crawl;
`aliases`, `isDeprecated` (literally `prev.isDeprecated || false`) and
`isFoundational` from the prior record.  (The source's `|| []` / `|| false`
defaults only matter for persisted JSON lacking the typed fields, which
the typed model excludes.) -/
def combineCourse (prev c : Course) : Course :=
  { c with
    aliases := prev.aliases
    isDeprecated := prev.isDeprecated || false
    isFoundational := prev.isFoundational }

/-- `mergeCourses` (crawler.ts lines 568–592) over an explicit starting
registry: unseen identifiers are appended and reported new, existing
ones are merged with `combineCourse`. -/
def mergeCoursesFrom : List Course → List (String × Course) →
    List (String × Course) × List String
  | [], m => (m, [])
  | c :: cs, m =>
    match getKey m c.courseId with
    | none =>
      let r := mergeCoursesFrom cs (setKey m c.courseId c)
      (r.1, c.courseId :: r.2)
    | some prev => mergeCoursesFrom cs (setKey m c.courseId (combineCourse prev c))

/-- `mergeCourses(crawledCourses, existingCourses)`: an absent prior
registry starts from the empty object. -/
def mergeCourses (crawled : List Course) (existing : Option (List (String × Course))) :
    List (String × Course) × List String :=
  mergeCoursesFrom crawled (existing.getD [])

/-- `mergeSpecializations` (crawler.ts lines 597–608): each crawled
specialization fully replaces the entry under its identifier. -/
def mergeSpecsFrom : List Specialization → List (String × Specialization) →
    List (String × Specialization)
  | [], m => m
  | s :: ss, m => mergeSpecsFrom ss (setKey m s.specializationId s)

def mergeSpecializations (crawled : List Specialization)
    (existing : Option (List (String × Specialization))) :
    List (String × Specialization) :=
  mergeSpecsFrom crawled (existing.getD [])

/-! ## Specification-side auxiliary definitions

These are not part of the embedding of the source; they give declarative
readings that the theorems below relate to the embedded code. -/

/-- The raw (duplicate-preserving) course ids extracted from a run of
`<li>` captures, in order. -/
def rawItemIds (items : List (List Char)) : List String :=
  items.filterMap (fun it => extractCourseId (itemTextOf it))

/-- The raw course ids of all list items of all `<ul>/<ol>` lists of a
fragment, in document order. -/
def rawPooledIds (s : List Char) : List String :=
  (scanLists s).flatMap (fun l => rawItemIds (scanLis l.html))

/-- Well-formedness of an optional section code: one uppercase letter
and two digits. -/
def codeWf : Option (Char × Char × Char) → Bool
  | some (a, b, c) => isUpperAscii a && isDigitAscii b && isDigitAscii c
  | none => true

/-- Does the text contain any of the eight entity spellings the
normalizer rewrites? -/
def containsAnyEntity (l : List Char) : Bool :=
  containsSub "&nbsp;".toList l || containsSub "&amp;".toList l ||
  containsSub "&lt;".toList l || containsSub "&gt;".toList l ||
  containsSub "&quot;".toList l || containsSub "&#39;".toList l ||
  containsSub "&ndash;".toList l || containsSub "&mdash;".toList l

/-- The value the course registry ends up holding at one key after a
merge pass over the fresh courses that carry that key, starting from the
prior value at the key. -/
def mergeVal : Option Course → List Course → Option Course
  | o, [] => o
  | o, c :: cs =>
    mergeVal (some (match o with | none => c | some p => combineCourse p c)) cs

/-- Likewise for the specialization registry: the last fresh
specialization under the key wins. -/
def mergeValS : Option Specialization → List Specialization → Option Specialization
  | o, [] => o
  | _, s :: ss => mergeValS (some s) ss

/-- Whitespace-normal text: every whitespace character is a plain space
and no two whitespace characters are adjacent (the shape `collapseWs`
produces). -/
def WsClean (l : List Char) : Prop :=
  (∀ c ∈ l, isJsWs c = true → c = ' ') ∧
  l.Chain' (fun a b => ¬(isJsWs a = true ∧ isJsWs b = true))

/-- Fixture: a curated prior course record with `isDeprecated: true`. -/
def demoPrior : Course :=
  { courseId := "CS-6601"
    name := "Old Name"
    departmentId := "CS"
    courseNumber := "6601"
    url := none
    isFoundational := true
    aliases := ["AI"]
    isDeprecated := true }

/-- Fixture: a fresh crawl of the same course without the curator
flags. -/
def demoFresh : Course :=
  { courseId := "CS-6601"
    name := "Artificial Intelligence"
    departmentId := "CS"
    courseNumber := "6601"
    url := some "https://example.org/ai"
    isFoundational := false
    aliases := []
    isDeprecated := false }

/-- Fixture: a small extracted specialization. -/
def demoSpec : Specialization :=
  { specializationId := "cs:ml"
    name := "Machine Learning"
    programId := "cs"
    coreCourses := [⟨"Pick 1", 1, ["CS-7641"]⟩]
    electiveCourseIds := ["CS-6601"] }

/-! # Theorems

## Registry lemmas (JS object semantics) -/

theorem getKey_setKey_self {α : Type} (m : List (String × α)) (k : String) (v : α) :
    getKey (setKey m k v) k = some v := by
  induction m with
  | nil => simp [setKey, getKey]
  | cons p t ih =>
    obtain ⟨k', v'⟩ := p
    by_cases h : k' = k
    · simp [setKey, getKey, h]
    · simp [setKey, getKey, h, ih]

theorem getKey_setKey_ne {α : Type} (m : List (String × α)) (k k' : String) (v : α)
    (h : k' ≠ k) : getKey (setKey m k v) k' = getKey m k' := by
  have h' : ¬(k = k') := fun hh => h hh.symm
  induction m with
  | nil => simp [setKey, getKey, h']
  | cons p t ih =>
    obtain ⟨k0, v0⟩ := p
    by_cases h0 : k0 = k
    · subst h0
      simp [setKey, getKey, h']
    · simp only [setKey, if_neg h0, getKey]
      by_cases h1 : k0 = k'
      · simp [h1]
      · simp [h1, ih]

theorem getKey_setKey_isSome {α : Type} (m : List (String × α)) (k k' : String) (v : α)
    (h : (getKey m k').isSome) : (getKey (setKey m k v) k').isSome := by
  by_cases hk : k' = k
  · subst hk; simp [getKey_setKey_self]
  · rwa [getKey_setKey_ne m k k' v hk]

theorem keysOf_setKey {α : Type} (m : List (String × α)) (k : String) (v : α) :
    keysOf (setKey m k v) = if k ∈ keysOf m then keysOf m else keysOf m ++ [k] := by
  induction m with
  | nil => simp [setKey, keysOf]
  | cons p t ih =>
    obtain ⟨k0, v0⟩ := p
    by_cases h0 : k0 = k
    · subst h0; simp [setKey, keysOf]
    · have h0' : ¬(k = k0) := fun hh => h0 hh.symm
      simp only [setKey, if_neg h0, keysOf, List.map_cons, List.mem_cons, h0', false_or]
      rw [show keysOf (setKey t k v) = List.map Prod.fst (setKey t k v) from rfl] at ih
      rw [show keysOf t = List.map Prod.fst t from rfl] at ih
      rw [ih]
      by_cases hm : k ∈ List.map Prod.fst t
      · simp [hm]
      · simp [hm]

theorem keysOf_setKey_of_isSome {α : Type} (m : List (String × α)) (k : String) (v : α)
    (h : (getKey m k).isSome) : keysOf (setKey m k v) = keysOf m := by
  have hmem : k ∈ keysOf m := by
    induction m with
    | nil => simp [getKey] at h
    | cons p t ih =>
      obtain ⟨k0, v0⟩ := p
      by_cases h0 : k0 = k
      · simp [keysOf, h0]
      · simp only [getKey, if_neg h0] at h
        simp only [keysOf, List.map_cons]
        exact List.mem_cons_of_mem _ (ih h)
  rw [keysOf_setKey, if_pos hmem]

theorem nodup_keysOf_setKey {α : Type} (m : List (String × α)) (k : String) (v : α)
    (h : (keysOf m).Nodup) : (keysOf (setKey m k v)).Nodup := by
  rw [keysOf_setKey]
  by_cases hm : k ∈ keysOf m
  · simpa [hm] using h
  · simp [hm, List.nodup_append, h, hm]

theorem getKey_eq_none_of_not_mem {α : Type} (m : List (String × α)) (k : String)
    (h : k ∉ keysOf m) : getKey m k = none := by
  induction m with
  | nil => rfl
  | cons p t ih =>
    obtain ⟨k0, v0⟩ := p
    simp only [keysOf, List.map_cons, List.mem_cons, not_or] at h
    have h1 : ¬(k0 = k) := fun hh => h.1 hh.symm
    simp [getKey, h1, ih h.2]

theorem registry_ext {α : Type} (m m' : List (String × α))
    (hnd : (keysOf m).Nodup) (hk : keysOf m = keysOf m')
    (hget : ∀ k, getKey m k = getKey m' k) : m = m' := by
  induction m generalizing m' with
  | nil =>
    cases m' with
    | nil => rfl
    | cons p t => simp [keysOf] at hk
  | cons p t ih =>
    obtain ⟨k0, v0⟩ := p
    cases m' with
    | nil => simp [keysOf] at hk
    | cons p' t' =>
      obtain ⟨k0', v0'⟩ := p'
      simp only [keysOf, List.map_cons, List.cons.injEq] at hk
      obtain ⟨hk0, hkt⟩ := hk
      subst hk0
      have hv : v0 = v0' := by
        have := hget k0
        simpa [getKey] using this
      subst hv
      have hnd' : (keysOf t).Nodup := by
        simp only [keysOf, List.map_cons, List.nodup_cons] at hnd
        exact hnd.2
      have hk0nt : k0 ∉ keysOf t := by
        simp only [keysOf, List.map_cons, List.nodup_cons] at hnd
        exact hnd.1
      have hk0nt' : k0 ∉ keysOf t' := by rw [show keysOf t' = List.map Prod.fst t' from rfl, ← hkt]; exact hk0nt
      have : t = t' := by
        apply ih t' hnd' hkt
        intro k
        by_cases hkk : k0 = k
        · subst hkk
          rw [getKey_eq_none_of_not_mem t k0 hk0nt,
            getKey_eq_none_of_not_mem t' k0 hk0nt']
        · have := hget k
          simpa [getKey, hkk] using this
      rw [this]

/-! ## Course merge lemmas -/

theorem combineCourse_combine (b y c : Course) :
    combineCourse (combineCourse b y) c = combineCourse b c := by
  simp [combineCourse]

theorem combineCourse_self (c : Course) : combineCourse c c = c := by
  cases c; simp [combineCourse]

theorem mergeVal_combine (cs : List Course) (b y : Course) :
    mergeVal (some (combineCourse b y)) cs = some (combineCourse b (cs.getLastD y)) := by
  induction cs generalizing y with
  | nil => simp [mergeVal, List.getLastD]
  | cons c cs ih =>
    show mergeVal (some (combineCourse (combineCourse b y) c)) cs = _
    rw [combineCourse_combine, ih]
    congr 1
    cases cs <;> simp [List.getLastD]

theorem mergeVal_cons (o : Option Course) (c : Course) (cs : List Course) :
    mergeVal o (c :: cs) = some (combineCourse (o.getD c) (cs.getLastD c)) := by
  cases o with
  | none =>
    show mergeVal (some c) cs = _
    rw [show (some c : Option Course) = some (combineCourse c c) from by rw [combineCourse_self]]
    rw [mergeVal_combine]
    simp
  | some p =>
    show mergeVal (some (combineCourse p c)) cs = _
    rw [mergeVal_combine]
    simp

theorem mergeVal_idem (o : Option Course) (occs : List Course) :
    mergeVal (mergeVal o occs) occs = mergeVal o occs := by
  cases occs with
  | nil => rfl
  | cons c cs =>
    rw [mergeVal_cons o c cs, mergeVal_cons (some (combineCourse (o.getD c) (cs.getLastD c))) c cs]
    simp [combineCourse_combine]

theorem getKey_mergeCoursesFrom (cs : List Course) (m : List (String × Course)) (k : String) :
    getKey (mergeCoursesFrom cs m).1 k =
      mergeVal (getKey m k) (cs.filter (fun c => c.courseId = k)) := by
  induction cs generalizing m with
  | nil => simp [mergeCoursesFrom, mergeVal]
  | cons c cs ih =>
    by_cases hk : c.courseId = k
    · subst hk
      cases hm : getKey m c.courseId with
      | none =>
        have hfil : (c :: cs).filter (fun c' => decide (c'.courseId = c.courseId)) =
            c :: cs.filter (fun c' => decide (c'.courseId = c.courseId)) := by
          simp [List.filter_cons]
        simp only [mergeCoursesFrom, hm, ih, hfil]
        rw [getKey_setKey_self]
        simp [mergeVal, hm]
      | some prev =>
        have hfil : (c :: cs).filter (fun c' => decide (c'.courseId = c.courseId)) =
            c :: cs.filter (fun c' => decide (c'.courseId = c.courseId)) := by
          simp [List.filter_cons]
        simp only [mergeCoursesFrom, hm, ih, hfil]
        rw [getKey_setKey_self]
        simp [mergeVal, hm]
    · have hfil : List.filter (fun c => decide (c.courseId = k)) (c :: cs) =
        List.filter (fun c => decide (c.courseId = k)) cs := by
        simp [List.filter_cons, hk]
      cases hm : getKey m c.courseId with
      | none =>
        simp only [mergeCoursesFrom, hm, ih]
        rw [getKey_setKey_ne _ _ _ _ (fun h => hk h.symm)]
        simp [hfil]
      | some prev =>
        simp only [mergeCoursesFrom, hm, ih]
        rw [getKey_setKey_ne _ _ _ _ (fun h => hk h.symm)]
        simp [hfil]

theorem mergeCoursesFrom_snd_nil (cs : List Course) (m : List (String × Course))
    (h : ∀ c ∈ cs, (getKey m c.courseId).isSome) : (mergeCoursesFrom cs m).2 = [] := by
  induction cs generalizing m with
  | nil => rfl
  | cons c cs ih =>
    have hc := h c (by simp)
    obtain ⟨prev, hprev⟩ := Option.isSome_iff_exists.mp hc
    simp only [mergeCoursesFrom, hprev]
    exact ih _ (fun c' hc' => getKey_setKey_isSome _ _ _ _ (h c' (by simp [hc'])))

theorem keysOf_mergeCoursesFrom (cs : List Course) (m : List (String × Course))
    (h : ∀ c ∈ cs, (getKey m c.courseId).isSome) :
    keysOf (mergeCoursesFrom cs m).1 = keysOf m := by
  induction cs generalizing m with
  | nil => rfl
  | cons c cs ih =>
    have hc := h c (by simp)
    obtain ⟨prev, hprev⟩ := Option.isSome_iff_exists.mp hc
    simp only [mergeCoursesFrom, hprev]
    rw [ih _ (fun c' hc' => getKey_setKey_isSome _ _ _ _ (h c' (by simp [hc'])))]
    exact keysOf_setKey_of_isSome _ _ _ (by simp [hprev])

theorem nodup_mergeCoursesFrom (cs : List Course) (m : List (String × Course))
    (h : (keysOf m).Nodup) : (keysOf (mergeCoursesFrom cs m).1).Nodup := by
  induction cs generalizing m with
  | nil => exact h
  | cons c cs ih =>
    cases hm : getKey m c.courseId with
    | none => simp only [mergeCoursesFrom, hm]; exact ih _ (nodup_keysOf_setKey _ _ _ h)
    | some prev => simp only [mergeCoursesFrom, hm]; exact ih _ (nodup_keysOf_setKey _ _ _ h)

theorem getKey_isSome_of_mem_merged (cs : List Course) (m : List (String × Course)) :
    ∀ c ∈ cs, (getKey (mergeCoursesFrom cs m).1 c.courseId).isSome := by
  intro c hc
  rw [getKey_mergeCoursesFrom]
  have hmem : c ∈ cs.filter (fun c' => c'.courseId = c.courseId) := by
    simp [List.mem_filter, hc]
  cases hfil : cs.filter (fun c' => c'.courseId = c.courseId) with
  | nil => rw [hfil] at hmem; simp at hmem
  | cons x xs => rw [mergeVal_cons]; rfl

/-! ## Specialization merge lemmas -/

theorem mergeValS_cons (o : Option Specialization) (s : Specialization)
    (ss : List Specialization) : mergeValS o (s :: ss) = some (ss.getLastD s) := by
  induction ss generalizing s o with
  | nil => rfl
  | cons s' ss ih =>
    show mergeValS (some s) (s' :: ss) = _
    rw [ih]
    congr 1
    cases ss <;> simp [List.getLastD]

theorem mergeValS_idem (o : Option Specialization) (occs : List Specialization) :
    mergeValS (mergeValS o occs) occs = mergeValS o occs := by
  cases occs with
  | nil => rfl
  | cons s ss => rw [mergeValS_cons o s ss, mergeValS_cons]

theorem getKey_mergeSpecsFrom (ss : List Specialization)
    (m : List (String × Specialization)) (k : String) :
    getKey (mergeSpecsFrom ss m) k =
      mergeValS (getKey m k) (ss.filter (fun s => s.specializationId = k)) := by
  induction ss generalizing m with
  | nil => simp [mergeSpecsFrom, mergeValS]
  | cons s ss ih =>
    by_cases hk : s.specializationId = k
    · subst hk
      have hfil : (s :: ss).filter (fun s' => decide (s'.specializationId = s.specializationId)) =
          s :: ss.filter (fun s' => decide (s'.specializationId = s.specializationId)) := by
        simp [List.filter_cons]
      simp only [mergeSpecsFrom, ih, hfil]
      rw [getKey_setKey_self]
      cases hg : getKey m s.specializationId <;> rfl
    · simp only [mergeSpecsFrom, ih, List.filter_cons]
      rw [getKey_setKey_ne _ _ _ _ (fun h => hk h.symm)]
      simp [hk]

theorem getKey_isSome_of_mem_mergedS (ss : List Specialization)
    (m : List (String × Specialization)) :
    ∀ s ∈ ss, (getKey (mergeSpecsFrom ss m) s.specializationId).isSome := by
  intro s hs
  rw [getKey_mergeSpecsFrom]
  have hmem : s ∈ ss.filter (fun s' => s'.specializationId = s.specializationId) := by
    simp [List.mem_filter, hs]
  cases hfil : ss.filter (fun s' => s'.specializationId = s.specializationId) with
  | nil => rw [hfil] at hmem; simp at hmem
  | cons x xs => rw [mergeValS_cons]; rfl

theorem keysOf_mergeSpecsFrom (ss : List Specialization)
    (m : List (String × Specialization))
    (h : ∀ s ∈ ss, (getKey m s.specializationId).isSome) :
    keysOf (mergeSpecsFrom ss m) = keysOf m := by
  induction ss generalizing m with
  | nil => rfl
  | cons s ss ih =>
    simp only [mergeSpecsFrom]
    rw [ih _ (fun s' hs' => getKey_setKey_isSome _ _ _ _ (h s' (by simp [hs'])))]
    exact keysOf_setKey_of_isSome _ _ _ (h s (by simp))

theorem nodup_mergeSpecsFrom (ss : List Specialization)
    (m : List (String × Specialization)) (h : (keysOf m).Nodup) :
    (keysOf (mergeSpecsFrom ss m)).Nodup := by
  induction ss generalizing m with
  | nil => exact h
  | cons s ss ih => exact ih _ (nodup_keysOf_setKey _ _ _ h)

end Crawler

namespace Crawler

/-! ## Claim C7: the Catalog Reconciler is idempotent over identical fresh data -/

/-- C7: for every prior course registry and specialization registry (with
the duplicate-free keys JS objects guarantee) and every fresh extraction,
merging the same fresh courses a second time into the result of the first
merge returns that result unchanged and reports no newly observed course
identifiers, and merging the same fresh specializations a second time
likewise returns the first merge's registry unchanged. -/
theorem reconciler_merge_idempotent (crawled : List Course)
    (existing : Option (List (String × Course)))
    (specs : List Specialization)
    (existingS : Option (List (String × Specialization)))
    (hnd : (keysOf (existing.getD [])).Nodup)
    (hndS : (keysOf (existingS.getD [])).Nodup) :
    mergeCourses crawled (some (mergeCourses crawled existing).1) =
      ((mergeCourses crawled existing).1, []) ∧
    mergeSpecializations specs (some (mergeSpecializations specs existingS)) =
      mergeSpecializations specs existingS := by
  constructor
  · have hpres : ∀ c ∈ crawled,
        (getKey (mergeCoursesFrom crawled (existing.getD [])).1 c.courseId).isSome :=
      getKey_isSome_of_mem_merged crawled (existing.getD [])
    have hsnd := mergeCoursesFrom_snd_nil crawled _ hpres
    have hkeys := keysOf_mergeCoursesFrom crawled _ hpres
    have hnd1 : (keysOf (mergeCoursesFrom crawled (existing.getD [])).1).Nodup :=
      nodup_mergeCoursesFrom crawled _ hnd
    have hpt : ∀ k,
        getKey (mergeCoursesFrom crawled (mergeCoursesFrom crawled (existing.getD [])).1).1 k =
          getKey (mergeCoursesFrom crawled (existing.getD [])).1 k := by
      intro k
      rw [getKey_mergeCoursesFrom, getKey_mergeCoursesFrom, mergeVal_idem,
        ← getKey_mergeCoursesFrom]
    have hfst := registry_ext _ _ (by rw [hkeys]; exact hnd1) hkeys hpt
    show mergeCoursesFrom crawled ((some (mergeCoursesFrom crawled (existing.getD [])).1).getD [])
      = ((mergeCoursesFrom crawled (existing.getD [])).1, [])
    rw [Option.getD_some, Prod.ext_iff]
    exact ⟨hfst, hsnd⟩
  · have hpres : ∀ s ∈ specs,
        (getKey (mergeSpecsFrom specs (existingS.getD [])) s.specializationId).isSome :=
      getKey_isSome_of_mem_mergedS specs (existingS.getD [])
    have hkeys := keysOf_mergeSpecsFrom specs _ hpres
    have hnd1 : (keysOf (mergeSpecsFrom specs (existingS.getD []))).Nodup :=
      nodup_mergeSpecsFrom specs _ hndS
    have hpt : ∀ k,
        getKey (mergeSpecsFrom specs (mergeSpecsFrom specs (existingS.getD []))) k =
          getKey (mergeSpecsFrom specs (existingS.getD [])) k := by
      intro k
      rw [getKey_mergeSpecsFrom, getKey_mergeSpecsFrom, mergeValS_idem,
        ← getKey_mergeSpecsFrom]
    have hfst := registry_ext _ _ (by rw [hkeys]; exact hnd1) hkeys hpt
    show mergeSpecsFrom specs ((some (mergeSpecsFrom specs (existingS.getD []))).getD []) = _
    rw [Option.getD_some]
    exact hfst

/-- Witness for C7 at a concrete prior registry and fresh extraction. -/
theorem reconciler_merge_idempotent_witness :
    mergeCourses [demoFresh] (some (mergeCourses [demoFresh]
        (some [("CS-6601", demoPrior)])).1) =
      ((mergeCourses [demoFresh] (some [("CS-6601", demoPrior)])).1, []) ∧
    mergeSpecializations [demoSpec] (some (mergeSpecializations [demoSpec] none)) =
      mergeSpecializations [demoSpec] none :=
  reconciler_merge_idempotent [demoFresh] (some [("CS-6601", demoPrior)])
    [demoSpec] none (by decide) (by decide)

/-! ## Claim C8: the course merge preserves curator fields -/

/-- C8: for every prior registry holding a record under the fresh
course's identifier, the merged record keeps the prior `aliases`,
`isDeprecated` and `isFoundational` and takes `name`, `url`,
`departmentId` and `courseNumber` from the fresh extraction. -/
theorem mergeCourses_preserves_curator_fields (m : List (String × Course))
    (c prev : Course) (h : getKey m c.courseId = some prev) :
    ∃ r, getKey (mergeCourses [c] (some m)).1 c.courseId = some r ∧
      r.aliases = prev.aliases ∧ r.isDeprecated = prev.isDeprecated ∧
      r.isFoundational = prev.isFoundational ∧
      r.name = c.name ∧ r.url = c.url ∧ r.departmentId = c.departmentId ∧
      r.courseNumber = c.courseNumber := by
  refine ⟨combineCourse prev c, ?_, ?_, ?_, ?_, ?_, ?_, ?_, ?_⟩
  · show (getKey (mergeCoursesFrom [c] m).1 c.courseId) = _
    simp only [mergeCoursesFrom, h]
    exact getKey_setKey_self _ _ _
  all_goals simp [combineCourse]

/-- Witness for C8: a prior record with `isDeprecated: true` merged
against a fresh extraction without the flag still reports
`isDeprecated: true`, while the descriptive fields are refreshed. -/
theorem mergeCourses_preserves_curator_fields_witness :
    ∃ r, getKey (mergeCourses [demoFresh] (some [("CS-6601", demoPrior)])).1
        "CS-6601" = some r ∧
      r.aliases = ["AI"] ∧ r.isDeprecated = true ∧ r.isFoundational = true ∧
      r.name = "Artificial Intelligence" ∧ r.url = some "https://example.org/ai" ∧
      r.departmentId = "CS" ∧ r.courseNumber = "6601" := by
  have h := mergeCourses_preserves_curator_fields [("CS-6601", demoPrior)]
    demoFresh demoPrior (by decide)
  simpa [demoPrior, demoFresh] using h

end Crawler

namespace Crawler

/-! ## Character-class and scanning helper lemmas -/

theorem not_ws_of_upper (c : Char) (h : isUpperAscii c = true) : isJsWs c = false := by
  simp only [isUpperAscii, decide_eq_true_eq] at h
  simp only [isJsWs, decide_eq_false_iff_not]
  omega

theorem not_ws_of_digit (c : Char) (h : isDigitAscii c = true) : isJsWs c = false := by
  simp only [isDigitAscii, decide_eq_true_eq] at h
  simp only [isJsWs, decide_eq_false_iff_not]
  omega

theorem not_upper_of_colon : isUpperAscii ':' = false := by decide

theorem takeWhile_append_cons (p : Char → Bool) (l₁ : List Char) (x : Char) (l₂ : List Char)
    (h1 : ∀ c ∈ l₁, p c = true) (h2 : p x = false) :
    (l₁ ++ x :: l₂).takeWhile p = l₁ := by
  induction l₁ with
  | nil => simp [List.takeWhile_cons, h2]
  | cons a t ih =>
    simp only [List.cons_append, List.takeWhile_cons, h1 a (by simp)]
    simp [ih (fun c hc => h1 c (by simp [hc]))]

theorem dropWhile_append_cons (p : Char → Bool) (l₁ : List Char) (x : Char) (l₂ : List Char)
    (h1 : ∀ c ∈ l₁, p c = true) (h2 : p x = false) :
    (l₁ ++ x :: l₂).dropWhile p = x :: l₂ := by
  induction l₁ with
  | nil => simp [List.dropWhile_cons, h2]
  | cons a t ih =>
    simp only [List.cons_append, List.dropWhile_cons, h1 a (by simp)]
    simp [ih (fun c hc => h1 c (by simp [hc]))]

/-- Evaluation of the shared mention prefix on a well-formed leading
mention: subject letters, one space, four digits. -/
theorem matchMentionBase_append (subj : List Char) (d1 d2 d3 d4 : Char) (rest : List Char)
    (hs : ∀ c ∈ subj, isUpperAscii c = true) (hs2 : 2 ≤ subj.length) (hs4 : subj.length ≤ 4)
    (h1 : isDigitAscii d1 = true) (h2 : isDigitAscii d2 = true)
    (h3 : isDigitAscii d3 = true) (h4 : isDigitAscii d4 = true) :
    matchMentionBase (subj ++ ' ' :: d1 :: d2 :: d3 :: d4 :: rest) =
      some (subj, [d1, d2, d3, d4], rest) := by
  unfold matchMentionBase
  rw [takeWhile_append_cons _ subj ' ' _ hs (by decide),
    dropWhile_append_cons _ subj ' ' _ hs (by decide)]
  have hws : List.dropWhile isJsWs (' ' :: d1 :: d2 :: d3 :: d4 :: rest) =
      d1 :: d2 :: d3 :: d4 :: rest := by
    rw [List.dropWhile_cons]
    simp [List.dropWhile_cons, not_ws_of_digit d1 h1, (by decide : isJsWs ' ' = true)]
  simp [hws, hs2, hs4, h1, h2, h3, h4]

end Crawler

namespace Crawler

theorem tryCode_space_code (a b c : Char) (r : List Char) (ha : isUpperAscii a = true)
    (hb : isDigitAscii b = true) (hc : isDigitAscii c = true) :
    tryCode (' ' :: a :: b :: c :: r) = some ((a, b, c), r) := by
  unfold tryCode
  rw [List.dropWhile_cons]
  simp [(by decide : isJsWs ' ' = true), List.dropWhile_cons,
    not_ws_of_upper a ha, ha, hb, hc]

theorem tryCode_colon (r : List Char) : tryCode (':' :: r) = none := by
  have hd : List.dropWhile isJsWs (':' :: r) = ':' :: r := by
    rw [List.dropWhile_cons]
    simp [(by decide : isJsWs ':' = false)]
  unfold tryCode
  rw [hd]
  match r with
  | [] => rfl
  | [x] => rfl
  | x :: y :: t => simp [not_upper_of_colon]

theorem matchTail_colon_space (t0 : Char) (ts : List Char)
    (ht0 : isColonOrWs t0 = false)
    (htitle : (t0 :: ts).all (fun c => !isLineTerm c) = true) :
    matchTail (':' :: ' ' :: t0 :: ts) = some (t0 :: ts) := by
  unfold matchTail
  have h1 : List.takeWhile isColonOrWs (':' :: ' ' :: t0 :: ts) = [':', ' '] := by
    simp [List.takeWhile_cons, ht0,
      (by decide : isColonOrWs ':' = true), (by decide : isColonOrWs ' ' = true)]
  have h2 : List.dropWhile isColonOrWs (':' :: ' ' :: t0 :: ts) = t0 :: ts := by
    simp [List.dropWhile_cons, ht0,
      (by decide : isColonOrWs ':' = true), (by decide : isColonOrWs ' ' = true)]
  rw [h1, h2]
  simp [htitle]

/-! ## Claim C1: special-topics identity is not gated on a configured set -/

/-- C1 counterexample: the spec's own example declares 6601
non-special-topics, so by the claim a present section code should be
ignored and the identifier should be `CS-6601`; `parseCourseText`
embeds the section code regardless, yielding `CS-6601-B12` /
`6601-B12`. -/
theorem specialTopics_no_configured_set_counterexample :
    (parseCourseText "CS 6601 B12: Foo".toList none false).map Course.courseId =
      some "CS-6601-B12" ∧
    (parseCourseText "CS 6601 B12: Foo".toList none false).map Course.courseNumber =
      some "6601-B12" ∧
    (some "CS-6601-B12" : Option String) ≠ some "CS-6601" := by
  refine ⟨by decide, by decide, by decide⟩

/-- C1 amended: for every syntactically well-formed mention, the
identifier and the course-number field embed the section code exactly
when one is syntactically present — for every four-digit NUMBER, with no
membership test against any configured set. -/
theorem parseCourseText_sectionCode_unconditional (subj num : List Char)
    (code : Option (Char × Char × Char)) (t0 : Char) (ts : List Char)
    (url : Option String) (isF : Bool)
    (hs : ∀ c ∈ subj, isUpperAscii c = true)
    (hs2 : 2 ≤ subj.length) (hs4 : subj.length ≤ 4)
    (hnum : ∀ c ∈ num, isDigitAscii c = true) (hn4 : num.length = 4)
    (hcode : codeWf code = true)
    (ht0 : isColonOrWs t0 = false)
    (htitle : (t0 :: ts).all (fun c => !isLineTerm c) = true) :
    ∃ crs, parseCourseText (subj ++ (' ' :: (num ++
        (match code with
         | some (a, b, c) => ' ' :: a :: b :: c :: ':' :: ' ' :: t0 :: ts
         | none => ':' :: ' ' :: t0 :: ts)))) url isF = some crs ∧
      crs.courseId = mkCourseId subj num code ∧
      crs.courseNumber = mkCourseNumber num code := by
  match num, hn4 with
  | [d1, d2, d3, d4], _ =>
    have h1 := hnum d1 (by simp)
    have h2 := hnum d2 (by simp)
    have h3 := hnum d3 (by simp)
    have h4 := hnum d4 (by simp)
    cases code with
    | some abc =>
      obtain ⟨a, b, c⟩ := abc
      have hcode2 : (isUpperAscii a && isDigitAscii b && isDigitAscii c) = true := hcode
      simp only [Bool.and_eq_true] at hcode2
      obtain ⟨⟨ha, hb⟩, hc⟩ := hcode2
      show ∃ crs, parseCourseText
        (subj ++ ' ' :: d1 :: d2 :: d3 :: d4 :: ' ' :: a :: b :: c :: ':' :: ' ' :: t0 :: ts)
        url isF = some crs ∧
        crs.courseId = mkCourseId subj [d1, d2, d3, d4] (some (a, b, c)) ∧
        crs.courseNumber = mkCourseNumber [d1, d2, d3, d4] (some (a, b, c))
      unfold parseCourseText
      rw [matchMentionBase_append subj d1 d2 d3 d4 _ hs hs2 hs4 h1 h2 h3 h4]
      simp only [tryCode_space_code a b c _ ha hb hc,
        matchTail_colon_space t0 ts ht0 htitle]
      exact ⟨_, rfl, rfl, rfl⟩
    | none =>
      show ∃ crs, parseCourseText
        (subj ++ ' ' :: d1 :: d2 :: d3 :: d4 :: ':' :: ' ' :: t0 :: ts)
        url isF = some crs ∧
        crs.courseId = mkCourseId subj [d1, d2, d3, d4] none ∧
        crs.courseNumber = mkCourseNumber [d1, d2, d3, d4] none
      unfold parseCourseText
      rw [matchMentionBase_append subj d1 d2 d3 d4 _ hs hs2 hs4 h1 h2 h3 h4]
      simp only [tryCode_colon, matchTail_colon_space t0 ts ht0 htitle]
      exact ⟨_, rfl, rfl, rfl⟩

/-- Witness for C1 at the spec's own examples: `CS 8803 O08: Compilers`
embeds the code, `CS 6601: Artificial Intelligence` has none to embed. -/
theorem parseCourseText_sectionCode_unconditional_witness :
    (∃ crs, parseCourseText ("CS".toList ++ (' ' :: ("8803".toList ++
        (' ' :: 'O' :: '0' :: '8' :: ':' :: ' ' :: 'C' :: "ompilers".toList)))) none false =
        some crs ∧
      crs.courseId = mkCourseId "CS".toList "8803".toList (some ('O', '0', '8')) ∧
      crs.courseNumber = mkCourseNumber "8803".toList (some ('O', '0', '8'))) ∧
    (∃ crs, parseCourseText ("CS".toList ++ (' ' :: ("6601".toList ++
        (':' :: ' ' :: 'A' :: 'I'.toString.toList)))) none false = some crs ∧
      crs.courseId = mkCourseId "CS".toList "6601".toList none ∧
      crs.courseNumber = mkCourseNumber "6601".toList none) := by
  constructor
  · exact parseCourseText_sectionCode_unconditional "CS".toList "8803".toList
      (some ('O', '0', '8')) 'C' "ompilers".toList none false
      (by decide) (by decide) (by decide) (by decide) (by decide) (by decide)
      (by decide) (by decide)
  · exact parseCourseText_sectionCode_unconditional "CS".toList "6601".toList
      none 'A' 'I'.toString.toList none false
      (by decide) (by decide) (by decide) (by decide) (by decide) (by decide)
      (by decide) (by decide)

end Crawler

namespace Crawler

/-! ## Claim C5: the Entity Recognizer only matches leading mentions -/

/-- C5 counterexample: `"x CS 6601"` contains an embedded course mention
(witnessed by its suffix after two characters), yet identifier-only mode
returns `none` because the match is anchored at the start of the text. -/
theorem extractCourseId_embedded_counterexample :
    extractCourseId "x CS 6601".toList = none ∧
    extractCourseId ("x CS 6601".toList.drop 2) = some "CS-6601" := by
  refine ⟨by decide, by decide⟩

/-- C5 amended: identifier-only mode recognizes exactly the mentions at
the very start of the normalized text (`SUBJECT NUMBER[ SECTIONCODE]`,
arbitrary trailing text), rather than mentions embedded after other
leading characters. -/
theorem extractCourseId_leading (subj num rest : List Char)
    (code : Option (Char × Char × Char))
    (hs : ∀ c ∈ subj, isUpperAscii c = true)
    (hs2 : 2 ≤ subj.length) (hs4 : subj.length ≤ 4)
    (hnum : ∀ c ∈ num, isDigitAscii c = true) (hn4 : num.length = 4)
    (hcode : codeWf code = true)
    (hnone : code = none → tryCode rest = none) :
    extractCourseId (subj ++ (' ' :: (num ++
        (match code with
         | some (a, b, c) => ' ' :: a :: b :: c :: rest
         | none => rest)))) = some (mkCourseId subj num code) := by
  match num, hn4 with
  | [d1, d2, d3, d4], _ =>
    have h1 := hnum d1 (by simp)
    have h2 := hnum d2 (by simp)
    have h3 := hnum d3 (by simp)
    have h4 := hnum d4 (by simp)
    cases code with
    | some abc =>
      obtain ⟨a, b, c⟩ := abc
      have hcode2 : (isUpperAscii a && isDigitAscii b && isDigitAscii c) = true := hcode
      simp only [Bool.and_eq_true] at hcode2
      obtain ⟨⟨ha, hb⟩, hc⟩ := hcode2
      show extractCourseId
        (subj ++ ' ' :: d1 :: d2 :: d3 :: d4 :: ' ' :: a :: b :: c :: rest) =
        some (mkCourseId subj [d1, d2, d3, d4] (some (a, b, c)))
      unfold extractCourseId
      rw [matchMentionBase_append subj d1 d2 d3 d4 _ hs hs2 hs4 h1 h2 h3 h4]
      simp only [tryCode_space_code a b c _ ha hb hc]
    | none =>
      show extractCourseId (subj ++ ' ' :: d1 :: d2 :: d3 :: d4 :: rest) =
        some (mkCourseId subj [d1, d2, d3, d4] none)
      unfold extractCourseId
      rw [matchMentionBase_append subj d1 d2 d3 d4 _ hs hs2 hs4 h1 h2 h3 h4]
      simp only [hnone rfl]

/-- Witness for C5 on a leading mention with a section code and trailing
title text. -/
theorem extractCourseId_leading_witness :
    extractCourseId ("CS".toList ++ (' ' :: ("8803".toList ++
        (' ' :: 'O' :: '0' :: '8' :: ':' :: ' ' :: 'C' :: "ompilers".toList)))) =
      some (mkCourseId "CS".toList "8803".toList (some ('O', '0', '8'))) :=
  extractCourseId_leading "CS".toList "8803".toList
    (':' :: ' ' :: 'C' :: "ompilers".toList) (some ('O', '0', '8'))
    (by decide) (by decide) (by decide) (by decide) (by decide) (by decide)
    (fun h => by cases h)

end Crawler

namespace Crawler

/-! ## Claim C9: missing sections are non-fatal and empty-yielding -/

/-- C9: for every specialization page, if the core-courses heading is not
found the returned Specialization has an empty core group list, and if
the electives heading is not found it has an empty elective identifier
list; `crawlSpecializationPure` is total, so no input signals an error. -/
theorem missing_section_yields_empty (html : List Char) (sid sname : String) :
    (extractSectionContent html "Core Courses".toList
        ["Electives".toList, "Free Electives".toList] = none →
      (crawlSpecializationPure html sid sname).coreCourses = []) ∧
    (extractSectionContent html "Electives".toList ["Free Electives".toList] = none →
      (crawlSpecializationPure html sid sname).electiveCourseIds = []) := by
  constructor
  · intro h
    show (match extractSectionContent html "Core Courses".toList
        ["Electives".toList, "Free Electives".toList] with
      | none => []
      | some sec => parseCoreGroups sec) = []
    rw [h]
  · intro h
    show (match extractSectionContent html "Electives".toList
        ["Free Electives".toList] with
      | none => []
      | some sec => electiveIdsOf sec) = []
    rw [h]

/-- Witness for C9 on a page without any section headings. -/
theorem missing_section_yields_empty_witness :
    (crawlSpecializationPure "<p>no headings at all</p>".toList "cs:ml"
      "Machine Learning").coreCourses = [] ∧
    (crawlSpecializationPure "<p>no headings at all</p>".toList "cs:ml"
      "Machine Learning").electiveCourseIds = [] :=
  ⟨(missing_section_yields_empty "<p>no headings at all</p>".toList "cs:ml"
      "Machine Learning").1 (by decide),
   (missing_section_yields_empty "<p>no headings at all</p>".toList "cs:ml"
      "Machine Learning").2 (by decide)⟩

end Crawler

namespace Crawler

/-! ## Claim C3: the section-start heading requires a parenthesized qualifier -/

theorem findFirstFrom_eq_none_iff {α : Type} (f : List Char → Option (α × Nat))
    (hEmpty : f [] = none) :
    ∀ (l : List Char) (pos : Nat),
      findFirstFrom f l pos = none ↔ ∀ i, f (l.drop i) = none := by
  intro l
  induction l with
  | nil =>
    intro pos
    simp [findFirstFrom, List.drop_nil, hEmpty]
  | cons c t ih =>
    intro pos
    unfold findFirstFrom
    cases hf : f (c :: t) with
    | some a =>
      simp only [iff_false]
      constructor
      · intro hx
        exact absurd hx (by simp)
      · intro hx
        exact absurd (hx 0) (by simp [hf])
    | none =>
      rw [ih (pos + 1)]
      constructor
      · intro hx i
        cases i with
        | zero => simpa using hf
        | succ j => simpa using hx j
      · intro hx i
        simpa using hx (i + 1)

/-- C3 counterexample: a heading whose text is exactly the label with no
parenthesized qualifier is not matched as the section start (the claim
says it is), while the same heading with a qualifier is. -/
theorem sectionStart_requires_qualifier_counterexample :
    extractSectionContent "<h3>Core Courses</h3><ul><li>CS 6601</li></ul>".toList
      "Core Courses".toList ["Electives".toList, "Free Electives".toList] = none ∧
    extractSectionContent "<h3>Core Courses (9 hours)</h3>rest".toList
      "Core Courses".toList ["Electives".toList, "Free Electives".toList] =
      some "rest".toList := by
  refine ⟨by decide, by decide⟩

/-- C3 amended: the Section Segmenter locates the first h3/h4 heading
whose text is the target label followed by a mandatory parenthesized
qualifier; it returns none exactly when no position of the document
matches that start-heading pattern (in particular a bare
`<h3>Label</h3>` never starts a section). -/
theorem extractSectionContent_none_iff (html name : List Char)
    (nexts : List (List Char)) :
    extractSectionContent html name nexts = none ↔
      ∀ i, matchStartHeadingAt name (html.drop i) = none := by
  have hEmpty : matchStartHeadingAt name ([] : List Char) = none := rfl
  have key := findFirstFrom_eq_none_iff (matchStartHeadingAt name) hEmpty html 0
  unfold extractSectionContent
  cases h : findFirstFrom (matchStartHeadingAt name) html 0 with
  | none =>
    rw [h] at key
    simpa using key.mp rfl
  | some a =>
    rw [h] at key
    simp only [iff_false] at key ⊢
    constructor
    · intro hx
      exact absurd hx (by simp)
    · intro hx
      have : (some a : Option (Unit × Nat × Nat)) = none := key.mpr hx
      exact absurd this (by simp)

end Crawler

namespace Crawler

/-! ## Claim C10: every emitted requirement group is non-empty -/

theorem mem_guarded_singleton (g : SpecializationCourseGroup) (ids : List String)
    (nm : String) (pc : Nat)
    (hg : g ∈ (if ids.isEmpty then ([] : List SpecializationCourseGroup)
      else [⟨nm, pc, ids⟩])) : g.courseIds ≠ [] := by
  by_cases he : ids.isEmpty
  · rw [if_pos he] at hg
    exact absurd hg (List.not_mem_nil g)
  · rw [if_neg he] at hg
    simp only [List.mem_singleton] at hg
    subst hg
    intro hnil
    have hnil2 : ids = [] := hnil
    rw [hnil2] at he
    exact he rfl

/-- C10: for every core-requirements fragment, every requirement group
the classifier emits has at least one member course identifier — a
pattern whose claimed lists yield no recognizable mention produces no
group rather than an empty group. -/
theorem parseCoreGroups_members_nonempty (s : List Char)
    (g : SpecializationCourseGroup) (hg : g ∈ parseCoreGroups s) :
    g.courseIds ≠ [] := by
  unfold parseCoreGroups at hg
  cases hap : scanAndPicks s with
  | nil =>
    rw [hap] at hg
    have hg2 : g ∈ (if hasOrBetweenLists s then orJoinedGroup (scanLists s)
        else fallbackGroup s) := hg
    by_cases hor : hasOrBetweenLists s
    · rw [if_pos hor] at hg2
      exact mem_guarded_singleton g _ _ _ hg2
    · rw [if_neg hor] at hg2
      exact mem_guarded_singleton g _ _ _ hg2
  | cons ap aps =>
    rw [hap] at hg
    have hg2 : g ∈ corePick1Group (scanLists s) ap.pos ++
        coreAndPickGroups (scanLists s) (ap :: aps) s.length := hg
    rw [List.mem_append] at hg2
    cases hg2 with
    | inl h1 => exact mem_guarded_singleton g _ _ _ h1
    | inr h2 =>
      rw [coreAndPickGroups, List.mem_flatMap] at h2
      obtain ⟨an, _, hmem⟩ := h2
      exact mem_guarded_singleton g _ _ _ hmem

/-- Witness for C10 on a fragment using the sequential `And, pick N`
pattern with an instructional item discarded. -/
theorem parseCoreGroups_members_nonempty_witness :
    (⟨"Pick 2", 2, ["CS-7641"]⟩ : SpecializationCourseGroup).courseIds ≠ [] :=
  parseCoreGroups_members_nonempty
    ("<ul><li>CS 6300</li></ul><p>And, pick 2 of:</p><ul><li>CS 7641</li><li>Any core courses in excess of the requirement</li></ul>".toList)
    ⟨"Pick 2", 2, ["CS-7641"]⟩
    (by rw [show parseCoreGroups ("<ul><li>CS 6300</li></ul><p>And, pick 2 of:</p><ul><li>CS 7641</li><li>Any core courses in excess of the requirement</li></ul>".toList) = [⟨"Pick 1", 1, ["CS-6300"]⟩, ⟨"Pick 2", 2, ["CS-7641"]⟩] from by decide]; simp)

end Crawler

namespace Crawler

/-! ## Accumulation lemmas: the `includes`-guarded `push` idiom is
first-occurrence deduplication -/

theorem extractIdsPlain_cons (acc : List String) (it : List Char)
    (its : List (List Char)) :
    extractIdsPlain acc (it :: its) =
      extractIdsPlain (match extractCourseId (itemTextOf it) with
        | some cid => addUnique acc cid
        | none => acc) its := by
  unfold extractIdsPlain
  rw [List.foldl_cons]

theorem extractIdsPlain_eq_foldl (items : List (List Char)) :
    ∀ acc, extractIdsPlain acc items = List.foldl addUnique acc (rawItemIds items) := by
  induction items with
  | nil => intro acc; rfl
  | cons it its ih =>
    intro acc
    rw [extractIdsPlain_cons]
    cases hx : extractCourseId (itemTextOf it) with
    | none =>
      simp only [hx]
      rw [ih]
      simp [rawItemIds, List.filterMap_cons, hx]
    | some cid =>
      simp only [hx]
      rw [ih]
      simp [rawItemIds, List.filterMap_cons, hx]

theorem foldl_addUnique_eq (l : List String) :
    ∀ acc, List.foldl addUnique acc l =
      acc ++ dedupKeepFirst (l.filter (fun x => x ∉ acc)) := by
  induction l with
  | nil => intro acc; simp [dedupKeepFirst]
  | cons x xs ih =>
    intro acc
    rw [List.foldl_cons]
    by_cases hx : x ∈ acc
    · have h1 : addUnique acc x = acc := by simp [addUnique, hx]
      rw [h1, ih]
      have h2 : (x :: xs).filter (fun y => y ∉ acc) = xs.filter (fun y => y ∉ acc) := by
        simp [List.filter_cons, hx]
      rw [h2]
    · have h1 : addUnique acc x = acc ++ [x] := by simp [addUnique, hx]
      rw [h1, ih]
      have h2 : (x :: xs).filter (fun y => y ∉ acc) = x :: xs.filter (fun y => y ∉ acc) := by
        simp [List.filter_cons, hx]
      rw [h2]
      have h3 : dedupKeepFirst (x :: xs.filter (fun y => y ∉ acc)) =
          x :: dedupKeepFirst ((xs.filter (fun y => y ∉ acc)).filter (fun y => y ≠ x)) := by
        simp [dedupKeepFirst]
      rw [h3]
      have h4 : (xs.filter (fun y => y ∉ acc)).filter (fun y => y ≠ x) =
          xs.filter (fun y => y ∉ acc ++ [x]) := by
        rw [List.filter_filter]
        apply List.filter_congr
        intro y _
        by_cases h5 : y = x <;> by_cases h6 : y ∈ acc <;> simp [h5, h6]
      rw [h4, List.append_assoc]
      rfl

theorem dedupKeepFirst_eq_nil_iff (l : List String) :
    dedupKeepFirst l = [] ↔ l = [] := by
  cases l with
  | nil => simp [dedupKeepFirst]
  | cons x xs => simp [dedupKeepFirst]

theorem sectionItemIds_eq_dedup (s : List Char) :
    sectionItemIds s = dedupKeepFirst (rawItemIds (scanLis s)) := by
  show extractIdsPlain [] (scanLis s) = _
  rw [extractIdsPlain_eq_foldl, foldl_addUnique_eq]
  simp

theorem pooled_ids_eq_dedup (lists : List ListPos) :
    lists.foldl (fun acc l => extractIdsPlain acc (scanLis l.html)) [] =
      dedupKeepFirst (lists.flatMap (fun l => rawItemIds (scanLis l.html))) := by
  have h : ∀ acc, lists.foldl (fun acc l => extractIdsPlain acc (scanLis l.html)) acc =
      List.foldl addUnique acc (lists.flatMap (fun l => rawItemIds (scanLis l.html))) := by
    induction lists with
    | nil => intro acc; rfl
    | cons lp lps ih =>
      intro acc
      rw [List.foldl_cons, List.flatMap_cons, List.foldl_append,
        extractIdsPlain_eq_foldl, ih]
  rw [h, foldl_addUnique_eq]
  simp

end Crawler

namespace Crawler

/-! ## Claim C2: the fallback flat pattern -/

/-- C2 counterexample: in the fallback flat pattern with *disagreeing*
`pick N` phrases (`pick 2` … `pick 3`), the claim says the pick-count
defaults to the full member count (1 here); the code takes the first
distinct phrase value, 2. -/
theorem fallbackFlat_disagreeing_counterexample :
    parseCoreGroups "<p>pick 2</p><ul><li>CS 6601</li></ul><p>pick 3</p>".toList =
      [⟨"Core", 2, ["CS-6601"]⟩] ∧
    fallbackPickCounts "<p>pick 2</p><ul><li>CS 6601</li></ul><p>pick 3</p>".toList =
      [2, 3] ∧
    (2 : Nat) ≠ 1 :=
  ⟨by decide, by decide, by decide⟩

/-- C2 amended: in the fallback flat pattern the classifier collects
every course mention of every list item into one `Core` group,
deduplicated keeping first occurrence; its pick-count is the agreed N
when all `pick N` phrases agree, the full member count when no phrase
exists, and the *first* phrase's value (not the member count) when
phrases disagree. -/
theorem fallbackFlat_single_group (s : List Char)
    (h1 : scanAndPicks s = []) (h2 : hasOrBetweenLists s = false)
    (h3 : sectionItemIds s ≠ []) :
    parseCoreGroups s = [⟨"Core",
        match fallbackPickCounts s with
        | [] => (sectionItemIds s).length
        | p :: _ => p,
        sectionItemIds s⟩] ∧
    sectionItemIds s = dedupKeepFirst (rawItemIds (scanLis s)) ∧
    (∀ n, (∀ m ∈ fallbackPickCounts s, m = n) → fallbackPickCounts s ≠ [] →
      (parseCoreGroups s).map SpecializationCourseGroup.pickCount = [n]) := by
  have hmain : parseCoreGroups s = [⟨"Core",
      match fallbackPickCounts s with
      | [] => (sectionItemIds s).length
      | p :: _ => p,
      sectionItemIds s⟩] := by
    unfold parseCoreGroups
    rw [h1]
    show (if hasOrBetweenLists s then orJoinedGroup (scanLists s)
      else fallbackGroup s) = _
    rw [h2]
    show fallbackGroup s = _
    unfold fallbackGroup
    have hne : (sectionItemIds s).isEmpty = false := by
      cases hh : (sectionItemIds s).isEmpty
      · rfl
      · exact absurd (List.isEmpty_iff.mp hh) h3
    simp [hne]
  refine ⟨hmain, sectionItemIds_eq_dedup s, ?_⟩
  intro n hall hne
  rw [hmain]
  cases hp : fallbackPickCounts s with
  | nil => exact absurd hp hne
  | cons p ps =>
    have : p = n := hall p (by rw [hp]; simp)
    simp [this]

/-- Witness for C2 at the spec's example: `pick two` followed by a list
of five items of which one is not a recognizable course mention yields
one group with pick-count 2 and exactly 4 members. -/
theorem fallbackFlat_single_group_witness :
    parseCoreGroups "<p>pick two</p><ul><li>CS 6601</li><li>CS 6602</li><li>CS 6603</li><li>CS 6604</li><li>not a course</li></ul>".toList =
      [⟨"Core", 2, ["CS-6601", "CS-6602", "CS-6603", "CS-6604"]⟩] := by
  have h := fallbackFlat_single_group
    "<p>pick two</p><ul><li>CS 6601</li><li>CS 6602</li><li>CS 6603</li><li>CS 6604</li><li>not a course</li></ul>".toList
    (by decide) (by decide) (by decide)
  rw [h.1]
  decide

/-! ## Claim C6: the or-joined lists pattern -/

/-- C6 counterexample: a fragment with no `and, pick N` marker and two
lists joined by a paragraph containing only `or`, but in which no list
item is a recognizable course mention, yields *zero* groups rather than
the claimed exactly-one group. -/
theorem orJoined_no_mentions_counterexample :
    scanAndPicks "<ul><li>not one</li></ul><p>or</p><ul><li>nor this</li></ul>".toList = [] ∧
    hasOrBetweenLists "<ul><li>not one</li></ul><p>or</p><ul><li>nor this</li></ul>".toList = true ∧
    parseCoreGroups "<ul><li>not one</li></ul><p>or</p><ul><li>nor this</li></ul>".toList = [] :=
  ⟨by decide, by decide, by decide⟩

/-- C6 amended: when no `and, pick N` marker exists, the or-joined
trigger fires, and at least one course mention is recognized, the
classifier produces exactly one group named `Pick 1` with pick-count 1
whose members are the pooled course identifiers of all lists,
deduplicated keeping first occurrence; with no recognized mention it
produces no group at all. -/
theorem orJoined_single_group (s : List Char)
    (h1 : scanAndPicks s = []) (h2 : hasOrBetweenLists s = true)
    (h3 : rawPooledIds s ≠ []) :
    parseCoreGroups s = [⟨"Pick 1", 1, dedupKeepFirst (rawPooledIds s)⟩] := by
  unfold parseCoreGroups
  rw [h1]
  show (if hasOrBetweenLists s then orJoinedGroup (scanLists s)
    else fallbackGroup s) = _
  rw [h2]
  show orJoinedGroup (scanLists s) = _
  unfold orJoinedGroup
  rw [pooled_ids_eq_dedup]
  have hne : (dedupKeepFirst (rawPooledIds s)).isEmpty = false := by
    cases hh : (dedupKeepFirst (rawPooledIds s)).isEmpty
    · rfl
    · exact absurd ((dedupKeepFirst_eq_nil_iff _).mp (List.isEmpty_iff.mp hh)) h3
  rw [show (scanLists s).flatMap (fun l => rawItemIds (scanLis l.html)) =
    rawPooledIds s from rfl]
  simp [hne]

/-- Witness for C6: two lists joined by an `or` paragraph pool into one
`Pick 1` group, keeping the first occurrence of the duplicated id. -/
theorem orJoined_single_group_witness :
    parseCoreGroups "<ul><li>CS 6601</li><li>CS 6602</li></ul><p>or</p><ul><li>CS 6601</li><li>CS 6603</li></ul>".toList =
      [⟨"Pick 1", 1,
        dedupKeepFirst (rawPooledIds "<ul><li>CS 6601</li><li>CS 6602</li></ul><p>or</p><ul><li>CS 6601</li><li>CS 6603</li></ul>".toList)⟩] :=
  orJoined_single_group
    "<ul><li>CS 6601</li><li>CS 6602</li></ul><p>or</p><ul><li>CS 6601</li><li>CS 6603</li></ul>".toList
    (by decide) (by decide) (by decide)

end Crawler

namespace Crawler

/-! ## Claim C4: Text Normalizer idempotence -/

theorem replaceAllAux_id_of_not_contains (p0 : Char) (ptl repl : List Char)
    (l : List Char) (h : containsSub (p0 :: ptl) l = false) :
    replaceAllAux p0 ptl repl 0 l = l := by
  induction l with
  | nil => rfl
  | cons c rest ih =>
    rw [containsSub] at h
    simp only [Bool.or_eq_false_iff] at h
    show replaceAllAux p0 ptl repl 0 (c :: rest) = c :: rest
    simp [replaceAllAux, h.1, ih h.2]

/-- With no entity spelling present, the eight replacement passes are the
identity and the normalizer reduces to whitespace handling. -/
theorem decode_of_noEntities (t : List Char) (h : containsAnyEntity t = false) :
    decodeHtmlEntities t = trimWs (collapseWs t) := by
  simp only [containsAnyEntity, Bool.or_eq_false_iff] at h
  obtain ⟨⟨⟨⟨⟨⟨⟨h1, h2⟩, h3⟩, h4⟩, h5⟩, h6⟩, h7⟩, h8⟩ := h
  unfold decodeHtmlEntities
  rw [show replaceAll '&' "nbsp;".toList " ".toList t = t from
    replaceAllAux_id_of_not_contains _ _ _ _ h1]
  rw [show replaceAll '&' "amp;".toList "&".toList t = t from
    replaceAllAux_id_of_not_contains _ _ _ _ h2]
  rw [show replaceAll '&' "lt;".toList "<".toList t = t from
    replaceAllAux_id_of_not_contains _ _ _ _ h3]
  rw [show replaceAll '&' "gt;".toList ">".toList t = t from
    replaceAllAux_id_of_not_contains _ _ _ _ h4]
  rw [show replaceAll '&' "quot;".toList "\"".toList t = t from
    replaceAllAux_id_of_not_contains _ _ _ _ h5]
  rw [show replaceAll '&' "#39;".toList "'".toList t = t from
    replaceAllAux_id_of_not_contains _ _ _ _ h6]
  rw [show replaceAll '&' "ndash;".toList "–".toList t = t from
    replaceAllAux_id_of_not_contains _ _ _ _ h7]
  rw [show replaceAll '&' "mdash;".toList "—".toList t = t from
    replaceAllAux_id_of_not_contains _ _ _ _ h8]

end Crawler

namespace Crawler

theorem collapseWs_cons_cons (x y : Char) (ys : List Char) :
    collapseWs (x :: y :: ys) =
      if isJsWs x && isJsWs y then collapseWs (y :: ys)
      else (if isJsWs x then ' ' else x) :: collapseWs (y :: ys) := by
  simp [collapseWs]

theorem collapseWs_head (x : Char) (xs : List Char) :
    ∃ t, collapseWs (x :: xs) = (if isJsWs x then ' ' else x) :: t := by
  induction xs generalizing x with
  | nil => exact ⟨[], by simp [collapseWs]⟩
  | cons y ys ih =>
    rw [collapseWs_cons_cons]
    by_cases hxy : (isJsWs x && isJsWs y) = true
    · obtain ⟨t, ht⟩ := ih y
      rw [if_pos hxy, ht]
      simp only [Bool.and_eq_true] at hxy
      rw [hxy.1, hxy.2]
      exact ⟨t, rfl⟩
    · rw [if_neg hxy]
      exact ⟨collapseWs (y :: ys), rfl⟩

theorem wsClean_collapseWs (l : List Char) : WsClean (collapseWs l) := by
  induction l with
  | nil => exact ⟨by simp [collapseWs], by simp [collapseWs]⟩
  | cons x xs ih =>
    cases xs with
    | nil =>
      constructor
      · intro c hc hwc
        simp only [collapseWs, List.mem_singleton] at hc
        subst hc
        by_cases hx : isJsWs x = true
        · rw [if_pos hx]
        · rw [if_neg hx] at hwc ⊢
          exact absurd hwc hx
      · simp [collapseWs]
    | cons y ys =>
      rw [collapseWs_cons_cons]
      by_cases hxy : (isJsWs x && isJsWs y) = true
      · rw [if_pos hxy]; exact ih
      · rw [if_neg hxy]
        obtain ⟨t, ht⟩ := collapseWs_head y ys
        constructor
        · intro c hc hwc
          rcases List.mem_cons.mp hc with hc | hc
          · subst hc
            by_cases hx : isJsWs x = true
            · rw [if_pos hx]
            · rw [if_neg hx] at hwc ⊢
              exact absurd hwc hx
          · exact ih.1 c hc hwc
        · rw [List.chain'_cons']
          refine ⟨?_, ih.2⟩
          intro b hb
          rw [ht] at hb
          simp only [List.head?_cons, Option.mem_some_iff] at hb
          subst hb
          intro hcon
          apply hxy
          by_cases hx : isJsWs x = true <;> by_cases hy : isJsWs y = true <;>
            simp_all [(by decide : isJsWs ' ' = true)]

theorem collapseWs_of_wsClean (l : List Char) (h : WsClean l) : collapseWs l = l := by
  induction l with
  | nil => rfl
  | cons x xs ih =>
    cases xs with
    | nil =>
      by_cases hx : isJsWs x = true
      · have hsp : x = ' ' := h.1 x (by simp) hx
        simp [collapseWs, hx, hsp]
      · simp [collapseWs, hx]
    | cons y ys =>
      have hR := (List.chain'_cons'.mp h.2).1 y (by simp)
      have hxy : (isJsWs x && isJsWs y) = false := by
        by_cases hx : isJsWs x = true <;> by_cases hy : isJsWs y = true <;> simp_all
      have htail : WsClean (y :: ys) := by
        refine ⟨fun c hc hwc => h.1 c (List.mem_cons_of_mem x hc) hwc,
          (List.chain'_cons'.mp h.2).2⟩
      rw [collapseWs_cons_cons, hxy]
      simp only [Bool.false_eq_true, if_false]
      rw [ih htail]
      congr 1
      by_cases hx : isJsWs x = true
      · rw [if_pos hx]
        exact (h.1 x (by simp) hx).symm
      · rw [if_neg hx]

theorem mem_trimWs (l : List Char) (c : Char) (hc : c ∈ trimWs l) : c ∈ l := by
  unfold trimWs at hc
  rw [List.mem_reverse] at hc
  have h1 := (List.dropWhile_sublist (l := (l.dropWhile isJsWs).reverse) isJsWs).mem hc
  rw [List.mem_reverse] at h1
  exact (List.dropWhile_sublist (l := l) isJsWs).mem h1

theorem wsClean_trimWs (l : List Char) (h : WsClean l) : WsClean (trimWs l) := by
  obtain ⟨h1, h2⟩ := h
  refine ⟨fun c hc hwc => h1 c (mem_trimWs l c hc) hwc, ?_⟩
  have hsym : ∀ (m : List Char),
      m.Chain' (fun a b => ¬(isJsWs a = true ∧ isJsWs b = true)) →
      m.reverse.Chain' (fun a b => ¬(isJsWs a = true ∧ isJsWs b = true)) := by
    intro m hm
    rw [List.chain'_reverse]
    exact hm.imp (fun a b hab => fun hcon => hab ⟨hcon.2, hcon.1⟩)
  have c1 := h2.suffix (List.dropWhile_suffix (l := l) isJsWs)
  have c2 := hsym _ c1
  have c3 := c2.suffix (List.dropWhile_suffix (l := (l.dropWhile isJsWs).reverse) isJsWs)
  exact hsym _ c3

theorem head_dropWhile_not (p : Char → Bool) (l : List Char) :
    ∀ c, (l.dropWhile p).head? = some c → p c = false := by
  induction l with
  | nil => intro c hc; simp at hc
  | cons x xs ih =>
    intro c hc
    rw [List.dropWhile_cons] at hc
    by_cases hx : p x = true
    · rw [if_pos hx] at hc
      exact ih c hc
    · rw [if_neg hx] at hc
      simp only [List.head?_cons, Option.some_inj] at hc
      subst hc
      exact Bool.eq_false_iff.mpr hx

theorem dropWhile_eq_self_of_head (p : Char → Bool) (l : List Char)
    (h : ∀ c, l.head? = some c → p c = false) : l.dropWhile p = l := by
  cases l with
  | nil => rfl
  | cons x xs =>
    rw [List.dropWhile_cons, if_neg]
    rw [h x rfl]
    simp

theorem suffix_getLast? (l' l : List Char) (h : l' <:+ l) (hne : l' ≠ []) :
    l'.getLast? = l.getLast? := by
  obtain ⟨pre, rfl⟩ := h
  exact (List.getLast?_append_of_ne_nil _ hne).symm

theorem trimWs_trimWs (l : List Char) : trimWs (trimWs l) = trimWs l := by
  have hfix1 : (trimWs l).dropWhile isJsWs = trimWs l := by
    apply dropWhile_eq_self_of_head
    intro c hc
    unfold trimWs at hc
    rw [List.head?_reverse] at hc
    have hY := suffix_getLast? _ _
      (List.dropWhile_suffix (l := (l.dropWhile isJsWs).reverse) isJsWs) ?hne
    case hne =>
      intro hnil
      rw [hnil] at hc
      simp at hc
    rw [hY, List.getLast?_reverse] at hc
    exact head_dropWhile_not isJsWs l c hc
  have hfix2 : ((l.dropWhile isJsWs).reverse.dropWhile isJsWs).dropWhile isJsWs =
      (l.dropWhile isJsWs).reverse.dropWhile isJsWs := by
    apply dropWhile_eq_self_of_head
    exact head_dropWhile_not isJsWs _
  show ((((trimWs l).dropWhile isJsWs).reverse.dropWhile isJsWs).reverse) = trimWs l
  rw [hfix1]
  show ((((l.dropWhile isJsWs).reverse.dropWhile isJsWs).reverse).reverse.dropWhile
    isJsWs).reverse = _
  rw [List.reverse_reverse, hfix2]
  rfl

/-- C4 counterexample: decoding `"&amp;nbsp;"` produces the literal text
`"&nbsp;"`, which a second pass decodes further to the empty string, so
the normalizer is not idempotent on every input. -/
theorem decodeHtmlEntities_not_idempotent_counterexample :
    decodeHtmlEntities (decodeHtmlEntities "&amp;nbsp;".toList) ≠
      decodeHtmlEntities "&amp;nbsp;".toList ∧
    decodeHtmlEntities "&amp;nbsp;".toList = "&nbsp;".toList ∧
    decodeHtmlEntities (decodeHtmlEntities "&amp;nbsp;".toList) = [] :=
  ⟨by decide, by decide, by decide⟩

/-- C4 amended: the Text Normalizer is idempotent on every input whose
normalized form contains none of the eight recognized entity spellings
(the whitespace handling is always idempotent; only an input whose
decoding re-creates an entity spelling, such as `"&amp;nbsp;"`, is
renormalized differently). -/
theorem decodeHtmlEntities_idempotent (s : List Char)
    (h : containsAnyEntity (decodeHtmlEntities s) = false) :
    decodeHtmlEntities (decodeHtmlEntities s) = decodeHtmlEntities s := by
  rw [decode_of_noEntities _ h]
  show trimWs (collapseWs (trimWs (collapseWs _))) = trimWs (collapseWs _)
  rw [collapseWs_of_wsClean _ (wsClean_trimWs _ (wsClean_collapseWs _)), trimWs_trimWs]

/-- Witness for C4 on already-normalized text containing an ampersand
but no entity spelling. -/
theorem decodeHtmlEntities_idempotent_witness :
    containsAnyEntity (decodeHtmlEntities "A &amp; B &ndash; C".toList) = false ∧
    decodeHtmlEntities (decodeHtmlEntities "A &amp; B &ndash; C".toList) =
      decodeHtmlEntities "A &amp; B &ndash; C".toList :=
  ⟨by decide, decodeHtmlEntities_idempotent "A &amp; B &ndash; C".toList (by decide)⟩

end Crawler
